import Mathlib

/-!
# Verification of the Volt plugin sandbox and registry core

This file gives a shallow embedding, in Lean 4, of the identifier
validation, sandbox path resolution, config/cache store, and plugin
registry of the `volt-extensions` repository
(`src/api/rust/src/api.rs` and `src/api/rust/src/registry.rs`), and
proves or refutes the specification claims about them.

Modelling conventions:
* Rust `String`/`&str` values are Lean `String`; Rust `str::len`
  (UTF-8 byte length) is embedded as the sum of per-character UTF-8
  sizes.
* Filesystem paths are lists of components (`List String`), Unix
  style; `PathBuf::join`, `Path::parent`, lexical resolution and
  `canonicalize` are embedded over that representation.  The
  filesystem model has no symlinks, so `canonicalize` is lexical
  normalisation plus an existence requirement.
* Fallible Rust functions returning `Result<T, String>` become
  `Except String T`.
* Stateful filesystem code is embedded by explicit state passing over
  an `Fs` value; each store operation additionally records the list
  of filesystem-touching events it performs, so that statements about
  *which* checks and accesses an operation makes are expressible.
-/

namespace Volt

/-- Decidable equality for `Except`, used to evaluate the embedded
`Result`-returning functions on concrete inputs. -/
instance {ε α : Type} [DecidableEq ε] [DecidableEq α] : DecidableEq (Except ε α) := by
  intro a b
  cases a <;> cases b
  case error.error e f => exact decidable_of_iff (e = f) (by simp)
  case ok.ok x y => exact decidable_of_iff (x = y) (by simp)
  all_goals exact isFalse (by simp)

/-- UTF-8 byte size of one character, as used by Rust `str::len`. -/
def charUtf8Size (c : Char) : Nat :=
  if c.toNat ≤ 0x7F then 1
  else if c.toNat ≤ 0x7FF then 2
  else if c.toNat ≤ 0xFFFF then 3
  else 4

/-- Embedding of Rust `str::len`: the UTF-8 byte length of a string. -/
def byteLen (s : String) : Nat :=
  (s.data.map charUtf8Size).sum

/-- Embedding of Rust `str::contains(char)`. -/
def strHas (s : String) (c : Char) : Bool :=
  s.data.any (fun x => x == c)

/-- Embedding of Rust `str::starts_with(char)`. -/
def strHeadIs (s : String) (c : Char) : Bool :=
  s.data.head? == some c

/-- Embedding of Rust `str::ends_with(char)`. -/
def strLastIs (s : String) (c : Char) : Bool :=
  s.data.getLast? == some c

/-- Whether the two-character sequence `a b` occurs in the list
(embeds Rust `str::contains` of a two-ASCII-character pattern). -/
def hasPair (a b : Char) : List Char → Bool
  | [] => false
  | x :: t =>
    match t with
    | [] => false
    | y :: _ => (x == a && y == b) || hasPair a b t

/-- Embedding of Rust `char::is_ascii_alphanumeric`. -/
def isAsciiAlphanum (c : Char) : Bool :=
  decide ((65 ≤ c.toNat ∧ c.toNat ≤ 90) ∨ (97 ≤ c.toNat ∧ c.toNat ≤ 122) ∨
    (48 ≤ c.toNat ∧ c.toNat ≤ 57))

/-- The character whitelist of `validate_plugin_id`: ASCII
alphanumerics, hyphen and underscore. -/
def isPluginIdChar (c : Char) : Bool :=
  isAsciiAlphanum c || c == '-' || c == '_'

/-- The character whitelist of `validate_config_name`: ASCII
alphanumerics, hyphen, underscore and dot. -/
def isConfigNameChar (c : Char) : Bool :=
  isAsciiAlphanum c || c == '-' || c == '_' || c == '.'

/-- Embedding of `VoltPluginAPI::validate_plugin_id`
(src/api/rust/src/api.rs lines 53-80): the checks are applied in the
source order (empty, length, traversal components, separators,
character whitelist). -/
def validatePluginId (pluginId : String) : Except String Unit :=
  if pluginId.data.isEmpty then
    .error "Plugin ID cannot be empty"
  else if byteLen pluginId > 64 then
    .error "Plugin ID too long (max 64 characters)"
  else if pluginId = "." ∨ pluginId = ".." then
    .error "Plugin ID cannot be '.' or '..'"
  else if strHas pluginId '/' || strHas pluginId '\\' then
    .error "Plugin ID cannot contain path separators"
  else if !(pluginId.data.all isPluginIdChar) then
    .error "Plugin ID can only contain letters, numbers, hyphens, and underscores"
  else
    .ok ()

/-- Embedding of `VoltPluginAPI::validate_cache_key`
(src/api/rust/src/api.rs lines 89-116). -/
def validateCacheKey (cacheKey : String) : Except String Unit :=
  if cacheKey.data.isEmpty then
    .error "Cache key cannot be empty"
  else if byteLen cacheKey > 255 then
    .error "Cache key too long (max 255 characters)"
  else if strHas cacheKey ':' || strHeadIs cacheKey '/' || strHeadIs cacheKey '\\' then
    .error "Cache key cannot be an absolute path"
  else if cacheKey = "." ∨ cacheKey = ".." ∨ hasPair '/' '.' cacheKey.data ∨
      hasPair '\\' '.' cacheKey.data then
    .error "Cache key cannot contain path traversal components"
  else if strHas cacheKey '/' || strHas cacheKey '\\' then
    .error "Cache key cannot contain path separators"
  else
    .ok ()

/-- Embedding of `VoltPluginAPI::validate_config_name`
(src/api/rust/src/api.rs lines 125-162). -/
def validateConfigName (configName : String) : Except String Unit :=
  if configName.data.isEmpty then
    .error "Config name cannot be empty"
  else if byteLen configName > 255 then
    .error "Config name too long (max 255 characters)"
  else if strHas configName ':' || strHeadIs configName '/' || strHeadIs configName '\\' then
    .error "Config name cannot be an absolute path"
  else if configName = "." ∨ configName = ".." ∨ hasPair '/' '.' configName.data ∨
      hasPair '\\' '.' configName.data then
    .error "Config name cannot contain path traversal components"
  else if strHas configName '/' || strHas configName '\\' then
    .error "Config name cannot contain path separators"
  else if strHeadIs configName '.' || strLastIs configName '.' then
    .error "Config name cannot start or end with a dot"
  else if !(configName.data.all isConfigNameChar) then
    .error "Config name can only contain letters, numbers, hyphens, underscores, and dots"
  else
    .ok ()

/-! ## Path model

Paths are lists of components.  `PathBuf::join` with a string
argument splits the argument at `/` separators (empty components are
ignored) and appends the pieces, unless the argument is absolute, in
which case it replaces the path, as in Rust. -/

/-- Split a character list at `/` separators. -/
def splitSlash : List Char → List (List Char)
  | [] => [[]]
  | c :: cs =>
    let r := splitSlash cs
    if c = '/' then [] :: r
    else
      match r with
      | [] => [[c]]
      | h :: t => (c :: h) :: t

/-- The path components of a string: split at `/`, dropping empty
pieces (embeds `Path::components` for Unix paths). -/
def splitPath (s : String) : List String :=
  ((splitSlash s.data).filter (fun l => l ≠ [])).map (fun l => ⟨l⟩)

/-- Embedding of `PathBuf::join` with a string argument. -/
def pathJoinStr (p : List String) (s : String) : List String :=
  if strHeadIs s '/' then splitPath s else p ++ splitPath s

/-- One step of lexical path resolution: `.` is skipped, `..` removes
the last component, anything else is appended. -/
def resolveStep (acc : List String) (c : String) : List String :=
  if c = "." then acc
  else if c = ".." then acc.dropLast
  else acc ++ [c]

/-- Lexical resolution of a path (the symlink-free meaning of
`Path::canonicalize`): `.` and `..` components are eliminated. -/
def resolvePath (p : List String) : List String :=
  p.foldl resolveStep []

/-- `isWithin d p` holds when the component list `d` is an initial
segment of `p`: the path `p` lies inside the directory `d` (this is
Rust `Path::starts_with` on component lists). -/
def isWithin : List String → List String → Bool
  | [], _ => true
  | _ :: _, [] => false
  | d :: ds, x :: xs => d == x && isWithin ds xs

/-- Embedding of `Path::parent`: drop the last component. -/
def parentPath (p : List String) : Option (List String) :=
  if p = [] then none else some p.dropLast

/-- All initial segments of a component list (the directories that
`fs::create_dir_all` brings into existence). -/
def initialSegs : List String → List (List String)
  | [] => [[]]
  | x :: xs => [] :: (initialSegs xs).map (fun l => x :: l)

/-! ## Filesystem model

A filesystem is a finite map from resolved paths to file contents,
plus the set of existing directories.  There are no symlinks, so
lexical resolution coincides with real resolution and
`canonicalize` is resolution plus an existence check. -/

/-- Contents of one file: a raw byte blob (cache files) or text (the
JSON config files written by `fs::write` of a serialized document). -/
inductive FileData : Type where
  | bytes (b : List Nat) : FileData
  | text (s : String) : FileData
deriving DecidableEq

/-- The filesystem: files keyed by resolved path, and the set of
existing directories (also resolved). -/
structure Fs : Type where
  files : List (List String × FileData)
  dirs : List (List String)
deriving DecidableEq

/-- Look up the file stored at a path (after resolution). -/
def fileAt (fs : Fs) (p : List String) : Option FileData :=
  (fs.files.find? (fun e => e.1 == resolvePath p)).map (fun e => e.2)

/-- Whether a directory exists at a path (after resolution). -/
def dirExistsB (fs : Fs) (p : List String) : Bool :=
  fs.dirs.any (fun d => d == resolvePath p)

/-- Embedding of `Path::exists`: a file or directory is present at
the (resolved) path. -/
def pathExistsB (fs : Fs) (p : List String) : Bool :=
  dirExistsB fs p || (fileAt fs p).isSome

/-- Embedding of `fs::write`: store `d` at the resolved path,
replacing any previous content. -/
def fsWrite (fs : Fs) (p : List String) (d : FileData) : Fs :=
  { files := (resolvePath p, d) :: fs.files.filter (fun e => !(e.1 == resolvePath p)),
    dirs := fs.dirs }

/-- Embedding of `fs::create_dir_all`: all missing ancestors of the
resolved path come into existence. -/
def createDirAll (fs : Fs) (p : List String) : Fs :=
  { files := fs.files,
    dirs := (initialSegs (resolvePath p)).filter
        (fun q => !(fs.dirs.any (fun d => d == q))) ++ fs.dirs }

/-- Embedding of `fs::remove_dir_all`: the directory at the resolved
path and everything below it (files and directories) disappears. -/
def removeDirAll (fs : Fs) (p : List String) : Fs :=
  { files := fs.files.filter (fun e => !(isWithin (resolvePath p) e.1)),
    dirs := fs.dirs.filter (fun d => !(isWithin (resolvePath p) d)) }

/-- Embedding of `Path::canonicalize` in the symlink-free model:
lexical resolution, failing when no node exists at the result. -/
def canonicalizeFs (fs : Fs) (p : List String) : Except String (List String) :=
  if pathExistsB fs p then .ok (resolvePath p)
  else .error "No such file or directory"

/-! ## API state and store operations

`VoltPluginAPI::new(app_data_dir)` derives the cache and config roots
from the application data directory.  Each store operation is
embedded as a function from an `Fs` to a result, a new `Fs`, and the
list of filesystem events the operation performed.  Lock acquisition
(which in the source can only fail on poisoning after a panic) is
modelled as always succeeding. -/

/-- The `PluginAPIState` of `VoltPluginAPI` (src/api/rust/src/api.rs
lines 22-29). -/
structure ApiState : Type where
  appDataDir : List String
  cacheDir : List String
  configDir : List String
deriving DecidableEq

/-- Embedding of `VoltPluginAPI::new` (src/api/rust/src/api.rs lines
33-44). -/
def ApiState.new (appDataDir : List String) : ApiState :=
  { appDataDir := appDataDir,
    cacheDir := pathJoinStr appDataDir "cache",
    configDir := pathJoinStr appDataDir "config" }

/-- One filesystem-touching action of a store operation. -/
inductive FsEvent : Type where
  | canonCall (p : List String) : FsEvent
  | fileRead (p : List String) : FsEvent
  | fileWrite (p : List String) : FsEvent
  | dirCreate (p : List String) : FsEvent
  | dirRemove (p : List String) : FsEvent
deriving DecidableEq

/-- Whether an event is a `canonicalize` call (the confinement
check's symlink resolution). -/
def FsEvent.isCanon : FsEvent → Bool
  | .canonCall _ => true
  | _ => false

/-- Whether an event reads or writes a file. -/
def FsEvent.isFileAccess : FsEvent → Bool
  | .fileRead _ => true
  | .fileWrite _ => true
  | _ => false

/-- UTF-8 encoding of one character as bytes. -/
def charUtf8Bytes (c : Char) : List Nat :=
  let n := c.toNat
  if n ≤ 0x7F then [n]
  else if n ≤ 0x7FF then [0xC0 + n / 64, 0x80 + n % 64]
  else if n ≤ 0xFFFF then [0xE0 + n / 4096, 0x80 + (n / 64) % 64, 0x80 + n % 64]
  else [0xF0 + n / 262144, 0x80 + (n / 4096) % 64, 0x80 + (n / 64) % 64, 0x80 + n % 64]

/-- UTF-8 encoding of a string as bytes (what `fs::read` returns for
a text file). -/
def strUtf8Bytes (s : String) : List Nat :=
  s.data.foldr (fun c acc => charUtf8Bytes c ++ acc) []

/-- Result of running one embedded store operation. -/
structure RunOut (α : Type) : Type where
  result : Except String α
  fs : Fs
  events : List FsEvent

/-- The plugin cache directory `cache_dir/plugins/<plugin_id>`
computed by `get_plugin_cache_dir`. -/
def cacheDirOf (st : ApiState) (pluginId : String) : List String :=
  pathJoinStr (pathJoinStr st.cacheDir "plugins") pluginId

/-- The plugin config directory `config_dir/plugins/<plugin_id>`
computed by `get_plugin_config_dir`. -/
def configDirOf (st : ApiState) (pluginId : String) : List String :=
  pathJoinStr (pathJoinStr st.configDir "plugins") pluginId

/-- Embedding of `VoltPluginAPI::get_plugin_cache_dir`
(src/api/rust/src/api.rs lines 201-218): validates the id and lazily
creates the directory. -/
def getPluginCacheDirRun (st : ApiState) (fs : Fs) (pluginId : String) :
    RunOut (List String) :=
  match validatePluginId pluginId with
  | .error e => ⟨.error e, fs, []⟩
  | .ok _ =>
    let dir := cacheDirOf st pluginId
    if pathExistsB fs dir then ⟨.ok dir, fs, []⟩
    else ⟨.ok dir, createDirAll fs dir, [.dirCreate dir]⟩

/-- Embedding of `VoltPluginAPI::get_plugin_config_dir`
(src/api/rust/src/api.rs lines 226-243). -/
def getPluginConfigDirRun (st : ApiState) (fs : Fs) (pluginId : String) :
    RunOut (List String) :=
  match validatePluginId pluginId with
  | .error e => ⟨.error e, fs, []⟩
  | .ok _ =>
    let dir := configDirOf st pluginId
    if pathExistsB fs dir then ⟨.ok dir, fs, []⟩
    else ⟨.ok dir, createDirAll fs dir, [.dirCreate dir]⟩

/-- The confinement check of `read_cache` and `write_cache`: the Rust
let-chain `Ok(a) = x.canonicalize() && Ok(b) = y.canonicalize() &&
!a.starts_with(b)` — `true` means the error branch fires.  Also
returns the `canonicalize` events performed. -/
def outsideCheck (fs : Fs) (target dir : List String) : Bool × List FsEvent :=
  match canonicalizeFs fs target with
  | .error _ => (false, [.canonCall target])
  | .ok ct =>
    match canonicalizeFs fs dir with
    | .error _ => (false, [.canonCall target, .canonCall dir])
    | .ok cd => (!(isWithin cd ct), [.canonCall target, .canonCall dir])

/-- Embedding of `VoltPluginAPI::read_cache` (src/api/rust/src/api.rs
lines 351-368): validates the key, resolves the cache directory, runs
the canonicalization confinement check, then reads the file. -/
def readCacheRun (st : ApiState) (fs : Fs) (pluginId cacheKey : String) :
    RunOut (List Nat) :=
  match validateCacheKey cacheKey with
  | .error e => ⟨.error e, fs, []⟩
  | .ok _ =>
    match getPluginCacheDirRun st fs pluginId with
    | ⟨.error e, fs1, ev1⟩ => ⟨.error e, fs1, ev1⟩
    | ⟨.ok dir, fs1, ev1⟩ =>
      let cachePath := pathJoinStr dir cacheKey
      let chk := outsideCheck fs1 cachePath dir
      if chk.1 then
        ⟨.error "Cache path is outside plugin cache directory", fs1, ev1 ++ chk.2⟩
      else if !(pathExistsB fs1 cachePath) then
        ⟨.error "Cache entry not found", fs1, ev1 ++ chk.2⟩
      else
        match fileAt fs1 cachePath with
        | some (.bytes b) => ⟨.ok b, fs1, ev1 ++ chk.2 ++ [.fileRead cachePath]⟩
        | some (.text t) => ⟨.ok (strUtf8Bytes t), fs1, ev1 ++ chk.2 ++ [.fileRead cachePath]⟩
        | none => ⟨.error "Failed to read cache: not a file", fs1, ev1 ++ chk.2 ++ [.fileRead cachePath]⟩

/-- Embedding of `VoltPluginAPI::write_cache`
(src/api/rust/src/api.rs lines 376-393): the confinement check
canonicalizes the *parent* of the target, then the bytes are
written. -/
def writeCacheRun (st : ApiState) (fs : Fs) (pluginId cacheKey : String)
    (data : List Nat) : RunOut Unit :=
  match validateCacheKey cacheKey with
  | .error e => ⟨.error e, fs, []⟩
  | .ok _ =>
    match getPluginCacheDirRun st fs pluginId with
    | ⟨.error e, fs1, ev1⟩ => ⟨.error e, fs1, ev1⟩
    | ⟨.ok dir, fs1, ev1⟩ =>
      let cachePath := pathJoinStr dir cacheKey
      let chk :=
        match parentPath cachePath with
        | none => (false, [])
        | some par => outsideCheck fs1 par dir
      if chk.1 then
        ⟨.error "Cache path is outside plugin cache directory", fs1, ev1 ++ chk.2⟩
      else
        ⟨.ok (), fsWrite fs1 cachePath (.bytes data), ev1 ++ chk.2 ++ [.fileWrite cachePath]⟩

/-- Embedding of `VoltPluginAPI::clear_cache` (src/api/rust/src/api.rs
lines 399-410): resolve (and thereby create) the cache directory,
then, if it exists, remove it recursively and recreate it. -/
def clearCacheRun (st : ApiState) (fs : Fs) (pluginId : String) : RunOut Unit :=
  match getPluginCacheDirRun st fs pluginId with
  | ⟨.error e, fs1, ev1⟩ => ⟨.error e, fs1, ev1⟩
  | ⟨.ok dir, fs1, ev1⟩ =>
    if pathExistsB fs1 dir then
      ⟨.ok (), createDirAll (removeDirAll fs1 dir) dir,
        ev1 ++ [.dirRemove dir, .dirCreate dir]⟩
    else
      ⟨.ok (), fs1, ev1⟩

/-! ## JSON documents

`load_config`/`save_config` call the external `serde_json` crate:
`to_string_pretty` for serialization and `from_str` for parsing.
Both are modelled here over an inductive document type.  Numbers are
restricted to exact integers (`serde_json` i64/u64 numbers; IEEE
floating-point numbers are outside the model); object fields are a
list of key/value pairs in serialization order. -/

/-- A structured configuration document (models `serde_json::Value`
with exact integer numbers). -/
inductive Json : Type where
  | null : Json
  | bool (b : Bool) : Json
  | num (n : Int) : Json
  | str (s : String) : Json
  | arr (items : List Json) : Json
  | obj (fields : List (String × Json)) : Json

/-- Lowercase hexadecimal digit character, as used by `serde_json`
string escapes. -/
def hexDigitChar (d : Nat) : Char :=
  if d < 10 then Char.ofNat (48 + d) else Char.ofNat (87 + d)

/-- `serde_json` string escaping of one character: quote and
backslash are escaped, control characters get their short escapes or
a `\u00XX` escape, everything else is emitted as-is. -/
def escChar (c : Char) : List Char :=
  if c = '"' then ['\\', '"']
  else if c = '\\' then ['\\', '\\']
  else if c.toNat = 8 then ['\\', 'b']
  else if c.toNat = 9 then ['\\', 't']
  else if c.toNat = 10 then ['\\', 'n']
  else if c.toNat = 12 then ['\\', 'f']
  else if c.toNat = 13 then ['\\', 'r']
  else if c.toNat < 32 then
    ['\\', 'u', '0', '0', hexDigitChar (c.toNat / 16), hexDigitChar (c.toNat % 16)]
  else [c]

/-- Escape a whole string body. -/
def escStr (l : List Char) : List Char :=
  l.foldr (fun c acc => escChar c ++ acc) []

/-- Decimal digit character. -/
def digitChar (d : Nat) : Char :=
  Char.ofNat (48 + d)

/-- Little-endian decimal digit characters of a natural number. -/
def natCharsRev (n : Nat) : List Char :=
  if n < 10 then [digitChar n]
  else digitChar (n % 10) :: natCharsRev (n / 10)
termination_by n
decreasing_by exact Nat.div_lt_self (by omega) (by omega)

/-- Decimal representation of a natural number. -/
def natChars (n : Nat) : List Char :=
  (natCharsRev n).reverse

/-- Decimal representation of an integer, as `serde_json` prints
integer numbers. -/
def intChars (n : Int) : List Char :=
  if n < 0 then '-' :: natChars n.natAbs else natChars n.natAbs

/-- Two-space indentation at a nesting depth, as produced by
`serde_json::ser::PrettyFormatter`. -/
def indentChars (n : Nat) : List Char :=
  List.replicate (2 * n) ' '

mutual

/-- Characters of the pretty serialization of a document at nesting
depth `ind` (models `serde_json::to_string_pretty`, which indents by
two spaces and prints `[]`/`\x7b\x7d` for empty containers). -/
def serVal : Nat → Json → List Char
  | _, .null => ['n', 'u', 'l', 'l']
  | _, .bool true => ['t', 'r', 'u', 'e']
  | _, .bool false => ['f', 'a', 'l', 's', 'e']
  | _, .num n => intChars n
  | _, .str s => '"' :: (escStr s.data ++ ['"'])
  | _, .arr [] => ['[', ']']
  | ind, .arr (x :: xs) =>
    '[' :: '\n' :: (serItems (ind + 1) x xs ++ '\n' :: (indentChars ind ++ [']']))
  | _, .obj [] => ['\x7b', '\x7d']
  | ind, .obj ((k, v) :: kvs) =>
    '\x7b' :: '\n' :: (serFields (ind + 1) k v kvs ++ '\n' :: (indentChars ind ++ ['\x7d']))
termination_by _ j => sizeOf j
decreasing_by all_goals (simp_wf; try omega)

/-- Serialization of a nonempty run of array items, each on its own
indented line, separated by commas. -/
def serItems : Nat → Json → List Json → List Char
  | ind, x, [] => indentChars ind ++ serVal ind x
  | ind, x, y :: ys =>
    indentChars ind ++ (serVal ind x ++ (',' :: '\n' :: serItems ind y ys))
termination_by _ x xs => sizeOf x + sizeOf xs
decreasing_by all_goals (simp_wf; try omega)

/-- Serialization of a nonempty run of object fields
(`"key": value` lines separated by commas). -/
def serFields : Nat → String → Json → List (String × Json) → List Char
  | ind, k, v, [] =>
    indentChars ind ++ ('"' :: (escStr k.data ++ ('"' :: ':' :: ' ' :: serVal ind v)))
  | ind, k, v, (k2, v2) :: kvs =>
    indentChars ind ++ ('"' :: (escStr k.data ++ ('"' :: ':' :: ' ' :: (serVal ind v ++
      (',' :: '\n' :: serFields ind k2 v2 kvs)))))
termination_by _ _ v kvs => sizeOf v + sizeOf kvs
decreasing_by all_goals (simp_wf; try omega)

end

/-- Embedding of `serde_json::to_string_pretty`. -/
def toStringPretty (d : Json) : String :=
  ⟨serVal 0 d⟩

/-- JSON whitespace. -/
def isWsCh (c : Char) : Bool :=
  c == ' ' || c == '\n' || c == '\t' || c == '\r'

/-- Skip leading JSON whitespace. -/
def skipWs : List Char → List Char
  | [] => []
  | c :: cs => if isWsCh c then skipWs cs else c :: cs

/-- Decimal digit character test. -/
def isDigitCh (c : Char) : Bool :=
  decide (48 ≤ c.toNat ∧ c.toNat ≤ 57)

/-- Split off the leading run of decimal digits. -/
def spanDigits : List Char → List Char × List Char
  | [] => ([], [])
  | c :: cs =>
    if isDigitCh c then
      let r := spanDigits cs
      (c :: r.1, r.2)
    else ([], c :: cs)

/-- Numeric value of a big-endian run of decimal digit characters. -/
def digitsVal (l : List Char) : Nat :=
  l.foldl (fun a c => 10 * a + (c.toNat - 48)) 0

/-- Value of a hexadecimal digit character, if it is one. -/
def hexVal (c : Char) : Option Nat :=
  if 48 ≤ c.toNat ∧ c.toNat ≤ 57 then some (c.toNat - 48)
  else if 97 ≤ c.toNat ∧ c.toNat ≤ 102 then some (c.toNat - 87)
  else if 65 ≤ c.toNat ∧ c.toNat ≤ 70 then some (c.toNat - 55)
  else none

/-- Parse the body of a JSON string literal (after the opening
quote), unescaping, up to and over the closing quote.  Returns the
decoded characters and the remaining input. -/
def parseStrBody (l : List Char) : Option (List Char × List Char) :=
  match l with
  | [] => none
  | c :: rest =>
    if c = '"' then some ([], rest)
    else if c = '\\' then
      match rest with
      | [] => none
      | e :: rest2 =>
        if e = '"' then (parseStrBody rest2).map (fun r => ('"' :: r.1, r.2))
        else if e = '\\' then (parseStrBody rest2).map (fun r => ('\\' :: r.1, r.2))
        else if e = '/' then (parseStrBody rest2).map (fun r => ('/' :: r.1, r.2))
        else if e = 'b' then (parseStrBody rest2).map (fun r => (Char.ofNat 8 :: r.1, r.2))
        else if e = 't' then (parseStrBody rest2).map (fun r => (Char.ofNat 9 :: r.1, r.2))
        else if e = 'n' then (parseStrBody rest2).map (fun r => (Char.ofNat 10 :: r.1, r.2))
        else if e = 'f' then (parseStrBody rest2).map (fun r => (Char.ofNat 12 :: r.1, r.2))
        else if e = 'r' then (parseStrBody rest2).map (fun r => (Char.ofNat 13 :: r.1, r.2))
        else if e = 'u' then
          match rest2 with
          | h1 :: h2 :: h3 :: h4 :: rest3 =>
            match hexVal h1, hexVal h2, hexVal h3, hexVal h4 with
            | some v1, some v2, some v3, some v4 =>
              let code := v1 * 4096 + v2 * 256 + v3 * 16 + v4
              if code < 0xd800 then
                (parseStrBody rest3).map (fun r => (Char.ofNat code :: r.1, r.2))
              else none
            | _, _, _, _ => none
          | _ => none
        else none
    else (parseStrBody rest).map (fun r => (c :: r.1, r.2))
termination_by l.length
decreasing_by all_goals (simp_wf; try omega)

mutual

/-- Fuel-indexed recursive-descent JSON value parser (models
`serde_json::from_str`; leading whitespace is skipped). -/
def parseVal : Nat → List Char → Option (Json × List Char)
  | 0, _ => none
  | fuel + 1, l =>
    match skipWs l with
    | 'n' :: 'u' :: 'l' :: 'l' :: rest => some (.null, rest)
    | 't' :: 'r' :: 'u' :: 'e' :: rest => some (.bool true, rest)
    | 'f' :: 'a' :: 'l' :: 's' :: 'e' :: rest => some (.bool false, rest)
    | '"' :: rest => (parseStrBody rest).map (fun r => (.str ⟨r.1⟩, r.2))
    | '[' :: rest =>
      match skipWs rest with
      | ']' :: rest2 => some (.arr [], rest2)
      | _ => (parseItems fuel rest).map (fun r => (.arr r.1, r.2))
    | '\x7b' :: rest =>
      match skipWs rest with
      | '\x7d' :: rest2 => some (.obj [], rest2)
      | _ => (parseFields fuel rest).map (fun r => (.obj r.1, r.2))
    | '-' :: rest =>
      match spanDigits rest with
      | ([], _) => none
      | (ds, rest2) => some (.num (-(digitsVal ds : Int)), rest2)
    | c :: rest =>
      if isDigitCh c then
        match spanDigits (c :: rest) with
        | (ds, rest2) => some (.num (digitsVal ds : Int), rest2)
      else none
    | [] => none

/-- Parse the remaining items of a nonempty JSON array, including the
closing bracket. -/
def parseItems : Nat → List Char → Option (List Json × List Char)
  | 0, _ => none
  | fuel + 1, l =>
    match parseVal fuel l with
    | none => none
    | some (v, rest) =>
      match skipWs rest with
      | ',' :: rest2 => (parseItems fuel rest2).map (fun r => (v :: r.1, r.2))
      | ']' :: rest2 => some ([v], rest2)
      | _ => none

/-- Parse the remaining fields of a nonempty JSON object, including
the closing brace. -/
def parseFields : Nat → List Char → Option (List (String × Json) × List Char)
  | 0, _ => none
  | fuel + 1, l =>
    match skipWs l with
    | '"' :: rest =>
      match parseStrBody rest with
      | none => none
      | some (k, rest2) =>
        match skipWs rest2 with
        | ':' :: rest3 =>
          match parseVal fuel rest3 with
          | none => none
          | some (v, rest4) =>
            match skipWs rest4 with
            | ',' :: rest5 => (parseFields fuel rest5).map (fun r => ((⟨k⟩, v) :: r.1, r.2))
            | '\x7d' :: rest5 => some ([(⟨k⟩, v)], rest5)
            | _ => none
        | _ => none
    | _ => none

end

/-- Embedding of `serde_json::from_str`: parse a complete document,
allowing trailing whitespace only. -/
def fromStr (s : String) : Option Json :=
  match parseVal (s.data.length + 1) s.data with
  | some (d, rest) => if skipWs rest = [] then some d else none
  | none => none

/-! ## Config store -/

/-- Embedding of `VoltPluginAPI::load_config` (src/api/rust/src/api.rs
lines 279-298): validates the name, resolves the config directory,
returns the empty object if the backing file is absent, otherwise
reads and parses it.  No canonicalization-based confinement check
appears in the source, and correspondingly none is performed here. -/
def loadConfigRun (st : ApiState) (fs : Fs) (pluginId configName : String) :
    RunOut Json :=
  match validateConfigName configName with
  | .error e => ⟨.error e, fs, []⟩
  | .ok _ =>
    match getPluginConfigDirRun st fs pluginId with
    | ⟨.error e, fs1, ev1⟩ => ⟨.error e, fs1, ev1⟩
    | ⟨.ok dir, fs1, ev1⟩ =>
      let configPath := pathJoinStr dir (configName ++ ".json")
      if !(pathExistsB fs1 configPath) then
        ⟨.ok (.obj []), fs1, ev1⟩
      else
        match fileAt fs1 configPath with
        | some (.text content) =>
          match fromStr content with
          | some d => ⟨.ok d, fs1, ev1 ++ [.fileRead configPath]⟩
          | none => ⟨.error "Failed to parse config", fs1, ev1 ++ [.fileRead configPath]⟩
        | _ => ⟨.error "Failed to read config", fs1, ev1 ++ [.fileRead configPath]⟩

/-- Embedding of `VoltPluginAPI::save_config` (src/api/rust/src/api.rs
lines 306-325): validates the name, resolves the config directory,
serializes the document and writes it.  As in the source, no
canonicalization-based confinement check is performed. -/
def saveConfigRun (st : ApiState) (fs : Fs) (pluginId configName : String)
    (config : Json) : RunOut Unit :=
  match validateConfigName configName with
  | .error e => ⟨.error e, fs, []⟩
  | .ok _ =>
    match getPluginConfigDirRun st fs pluginId with
    | ⟨.error e, fs1, ev1⟩ => ⟨.error e, fs1, ev1⟩
    | ⟨.ok dir, fs1, ev1⟩ =>
      let configPath := pathJoinStr dir (configName ++ ".json")
      ⟨.ok (), fsWrite fs1 configPath (.text (toStringPretty config)),
        ev1 ++ [.fileWrite configPath]⟩

/-! ## Plugin registry

The `Plugin` trait (`crate::core::traits::Plugin`) is consumed by the
registry but its definition is not part of the sources under
verification. -/

/-- Modelled from the spec: the `Plugin` collaborator interface
(`crate::core::traits::Plugin`) is not under `src/`; section 6 of the
spec fixes its surface as `id()`, `name()`, `description()` and
`is_enabled()`, so a registered plugin is modelled as a record of
those four values. -/
structure PluginEntry : Type where
  id : String
  name : String
  description : String
  enabled : Bool
deriving DecidableEq

/-- The registry map (`HashMap<String, Box<dyn Plugin>>`), modelled
as an association list keyed by plugin id. -/
def Registry : Type := List (String × PluginEntry)

/-- Embedding of `HashMap::contains_key`. -/
def containsKey (r : Registry) (k : String) : Bool :=
  (List.any r (fun e => e.1 == k))

/-- Embedding of `HashMap::insert`: replace the entry with the given
key, or append a new one. -/
def insertEntry (r : Registry) (k : String) (v : PluginEntry) : Registry :=
  match r with
  | [] => [(k, v)]
  | (k2, v2) :: rest =>
    if k2 == k then (k, v) :: rest else (k2, v2) :: insertEntry rest k v

/-- Embedding of `HashMap::remove` followed by discarding the value:
drop the entry with the given key. -/
def eraseEntry (r : Registry) (k : String) : Registry :=
  match r with
  | [] => []
  | (k2, v2) :: rest =>
    if k2 == k then rest else (k2, v2) :: eraseEntry rest k

/-- Embedding of `PluginRegistry::register`
(src/api/rust/src/registry.rs lines 21-41): inserts under
`plugin.id()` unconditionally (an existing entry is overwritten with
only a logged warning); the write lock is modelled as always
acquired.  Returns the operation result and the new registry. -/
def registerOp (r : Registry) (p : PluginEntry) : Except String Unit × Registry :=
  (.ok (), insertEntry r p.id p)

/-- Embedding of `PluginRegistry::unregister`
(src/api/rust/src/registry.rs lines 44-56): removes the entry, or
fails with a not-found error leaving the registry unchanged. -/
def unregisterOp (r : Registry) (pluginId : String) : Except String Unit × Registry :=
  if containsKey r pluginId then (.ok (), eraseEntry r pluginId)
  else (.error ("Plugin '" ++ pluginId ++ "' not found"), r)

/-- Embedding of `PluginRegistry::count`
(src/api/rust/src/registry.rs lines 69-76). -/
def countOp (r : Registry) : Nat :=
  List.length r

/-- Embedding of `PluginRegistry::has_plugin`
(src/api/rust/src/registry.rs lines 79-84). -/
def hasPlugin (r : Registry) (pluginId : String) : Bool :=
  containsKey r pluginId

/-- Embedding of `PluginRegistry::list_plugins`
(src/api/rust/src/registry.rs lines 59-66). -/
def listPlugins (r : Registry) : List String :=
  r.map (fun e => e.1)

/-- Embedding of `PluginRegistry::enabled_count`
(src/api/rust/src/registry.rs lines 87-94). -/
def enabledCount (r : Registry) : Nat :=
  (r.filter (fun e => e.2.enabled)).length

/-! ## Parser fuel weights

The fuel a parser call needs is bounded by the node count of the
document being read back; these weights make that bound precise. -/

mutual

/-- Fuel needed by `parseVal` to read back a serialized document. -/
def wVal : Json → Nat
  | .null => 1
  | .bool _ => 1
  | .num _ => 1
  | .str _ => 1
  | .arr [] => 1
  | .arr (x :: xs) => 1 + wItems x xs
  | .obj [] => 1
  | .obj ((_, v) :: kvs) => 1 + wFields v kvs
termination_by j => sizeOf j
decreasing_by all_goals (simp_wf; try omega)

/-- Fuel needed by `parseItems` for a nonempty run of array items. -/
def wItems : Json → List Json → Nat
  | x, [] => 1 + wVal x
  | x, y :: ys => 1 + wVal x + wItems y ys
termination_by x xs => sizeOf x + sizeOf xs
decreasing_by all_goals (simp_wf; try omega)

/-- Fuel needed by `parseFields` for a nonempty run of object fields. -/
def wFields : Json → List (String × Json) → Nat
  | v, [] => 1 + wVal v
  | v, (_, v2) :: kvs => 1 + wVal v + wFields v2 kvs
termination_by v kvs => sizeOf v + sizeOf kvs
decreasing_by all_goals (simp_wf; try omega)

end

/-! ## General lemmas about the embedded primitives -/

theorem strHas_eq_false_iff {s : String} {c : Char} :
    strHas s c = false ↔ ∀ x ∈ s.data, x ≠ c := by
  simp [strHas]

theorem mk_data (s : String) : String.mk s.data = s := by
  cases s
  rfl

theorem data_append (a b : String) : (a ++ b).data = a.data ++ b.data := by
  cases a
  cases b
  rfl

theorem data_ne_nil_of_ne_empty {s : String} (h : s ≠ "") : s.data ≠ [] := by
  intro hd
  apply h
  have := mk_data s
  rw [hd] at this
  exact this.symm

theorem ne_of_data_ne {s t : String} (h : s.data ≠ t.data) : s ≠ t := by
  intro he
  exact h (by rw [he])

theorem splitSlash_no_slash {l : List Char} (h : ∀ c ∈ l, c ≠ '/') :
    splitSlash l = [l] := by
  induction l with
  | nil => rfl
  | cons c cs ih =>
    have hc : c ≠ '/' := h c (by simp)
    have := ih (fun x hx => h x (by simp [hx]))
    simp only [splitSlash, this]
    simp [hc]

theorem splitPath_single {k : String} (hne : k.data ≠ [])
    (h : ∀ c ∈ k.data, c ≠ '/') : splitPath k = [k] := by
  simp only [splitPath, splitSlash_no_slash h, List.filter, hne]
  simp [hne, mk_data]

theorem strHeadIs_eq_false {k : String} (h : ∀ c ∈ k.data, c ≠ '/') :
    strHeadIs k '/' = false := by
  simp only [strHeadIs]
  cases hd : k.data with
  | nil => simp
  | cons c cs =>
    have : c ≠ '/' := h c (by simp [hd])
    simp [this]

theorem pathJoinStr_single {k : String} (p : List String) (hne : k.data ≠ [])
    (h : ∀ c ∈ k.data, c ≠ '/') : pathJoinStr p k = p ++ [k] := by
  simp [pathJoinStr, strHeadIs_eq_false h, splitPath_single hne h]

theorem resolvePath_append_normal (p : List String) {k : String}
    (h1 : k ≠ ".") (h2 : k ≠ "..") :
    resolvePath (p ++ [k]) = resolvePath p ++ [k] := by
  simp only [resolvePath, List.foldl_append, List.foldl_cons, List.foldl_nil]
  simp [resolveStep, h1, h2]

theorem isWithin_append (d l : List String) : isWithin d (d ++ l) = true := by
  induction d with
  | nil => simp [isWithin]
  | cons x xs ih => simpa [isWithin] using ih

theorem isWithin_refl (d : List String) : isWithin d d = true := by
  have := isWithin_append d []
  simpa using this

theorem isWithin_iff_exists {d p : List String} :
    isWithin d p = true ↔ ∃ l, p = d ++ l := by
  constructor
  · intro h
    induction d generalizing p with
    | nil => exact ⟨p, rfl⟩
    | cons x xs ih =>
      cases p with
      | nil => simp [isWithin] at h
      | cons y ys =>
        simp only [isWithin, Bool.and_eq_true, beq_iff_eq] at h
        obtain ⟨l, hl⟩ := ih h.2
        exact ⟨l, by simp [h.1, hl]⟩
  · rintro ⟨l, rfl⟩
    exact isWithin_append d l

theorem self_mem_initialSegs (l : List String) : l ∈ initialSegs l := by
  induction l with
  | nil => simp [initialSegs]
  | cons x xs ih => simp [initialSegs, ih]

theorem initialSegs_length_le {q l : List String} (h : q ∈ initialSegs l) :
    q.length ≤ l.length := by
  induction l generalizing q with
  | nil => simp [initialSegs] at h; simp [h]
  | cons x xs ih =>
    simp only [initialSegs, List.mem_cons, List.mem_map] at h
    rcases h with h | ⟨a, ha, rfl⟩
    · simp [h]
    · simpa using Nat.succ_le_succ (ih ha)

/-! ## Lemmas about the validators -/

theorem validateCacheKey_ok {k : String} (h : validateCacheKey k = .ok ()) :
    k.data ≠ [] ∧ (∀ c ∈ k.data, c ≠ '/') ∧ (∀ c ∈ k.data, c ≠ '\\') ∧
      k ≠ "." ∧ k ≠ ".." := by
  unfold validateCacheKey at h
  split at h
  · cases h
  · split at h
    · cases h
    · split at h
      · cases h
      · split at h
        · cases h
        · split at h
          · cases h
          · next h1 h2 h3 h4 h5 =>
            rw [Bool.or_eq_true, not_or] at h5
            push_neg at h4
            refine ⟨?_, ?_, ?_, h4.1, h4.2.1⟩
            · simpa using h1
            · exact strHas_eq_false_iff.mp (by simpa using h5.1)
            · exact strHas_eq_false_iff.mp (by simpa using h5.2)

theorem validatePluginId_ok {k : String} (h : validatePluginId k = .ok ()) :
    k.data ≠ [] ∧ (∀ c ∈ k.data, c ≠ '/') ∧ k ≠ "." ∧ k ≠ ".." := by
  unfold validatePluginId at h
  split at h
  · cases h
  · split at h
    · cases h
    · split at h
      · cases h
      · split at h
        · cases h
        · next h1 h2 h3 h4 =>
          rw [Bool.or_eq_true, not_or] at h4
          push_neg at h3
          exact ⟨by simpa using h1, strHas_eq_false_iff.mp (by simpa using h4.1),
            h3.1, h3.2⟩

theorem validateConfigName_ok {k : String} (h : validateConfigName k = .ok ()) :
    k.data ≠ [] ∧ (∀ c ∈ k.data, c ≠ '/') := by
  unfold validateConfigName at h
  split at h
  · cases h
  · split at h
    · cases h
    · split at h
      · cases h
      · split at h
        · cases h
        · split at h
          · cases h
          · next h1 h2 h3 h4 h5 =>
            rw [Bool.or_eq_true, not_or] at h5
            constructor
            · simpa using h1
            · exact strHas_eq_false_iff.mp (by simpa using h5.1)

/-! ## Registry lemmas -/

theorem containsKey_insertEntry_self (r : Registry) (k : String) (v : PluginEntry) :
    containsKey (insertEntry r k v) k = true := by
  induction r with
  | nil => simp [insertEntry, containsKey]
  | cons e rest ih =>
    obtain ⟨k2, v2⟩ := e
    simp only [insertEntry]
    by_cases hk : (k2 == k) = true
    · simp [hk, containsKey]
    · simp only [hk, Bool.false_eq_true, if_false]
      simp only [containsKey, List.any_cons] at ih ⊢
      simp [ih]

theorem length_insertEntry_of_contains {r : Registry} {k : String} (v : PluginEntry)
    (h : containsKey r k = true) :
    (insertEntry r k v).length = r.length := by
  induction r with
  | nil => simp [containsKey] at h
  | cons e rest ih =>
    obtain ⟨k2, v2⟩ := e
    simp only [insertEntry]
    by_cases hk : (k2 == k) = true
    · simp [hk]
    · simp only [containsKey, List.any_cons, Bool.or_eq_true] at h
      rcases h with h | h
      · exact absurd h hk
      · simp only [hk, Bool.false_eq_true, if_false, List.length_cons]
        rw [ih h]

theorem length_insertEntry_of_not_contains {r : Registry} {k : String}
    (v : PluginEntry) (h : containsKey r k = false) :
    (insertEntry r k v).length = r.length + 1 := by
  induction r with
  | nil => simp [insertEntry]
  | cons e rest ih =>
    obtain ⟨k2, v2⟩ := e
    simp only [containsKey, List.any_cons, Bool.or_eq_false_iff] at h
    simp only [insertEntry, h.1, Bool.false_eq_true, if_false, List.length_cons]
    rw [ih h.2]

/-! ## Claim C3: behaviour of `validate_plugin_id` -/

theorem charUtf8Size_one_of_pluginChar {c : Char} (h : isPluginIdChar c = true) :
    charUtf8Size c = 1 := by
  simp only [isPluginIdChar, isAsciiAlphanum, Bool.or_eq_true, decide_eq_true_eq,
    beq_iff_eq] at h
  have hle : c.toNat ≤ 0x7F := by
    rcases h with ((h | h | h) | h) | h
    · omega
    · omega
    · omega
    · subst h; decide
    · subst h; decide
  simp [charUtf8Size, hle]

theorem sum_map_charUtf8Size {l : List Char}
    (h : ∀ c ∈ l, isPluginIdChar c = true) :
    (l.map charUtf8Size).sum = l.length := by
  induction l with
  | nil => rfl
  | cons c cs ih =>
    simp only [List.map_cons, List.sum_cons, List.length_cons,
      charUtf8Size_one_of_pluginChar (h c (by simp)),
      ih (fun x hx => h x (by simp [hx]))]
    omega

theorem byteLen_eq_length_of_pluginChars {s : String}
    (h : ∀ c ∈ s.data, isPluginIdChar c = true) :
    byteLen s = s.data.length :=
  sum_map_charUtf8Size h

/-- C3: every string containing a `/` or `\` separator, and the two
strings `.` and `..`, are rejected by `validate_plugin_id`; every
string of 1 to 64 characters drawn from ASCII letters, digits, `-`
and `_` is accepted. -/
theorem validatePluginId_spec (s : String) :
    ((strHas s '/' = true ∨ strHas s '\\' = true ∨ s = "." ∨ s = "..") →
      ∃ e, validatePluginId s = .error e)
    ∧ ((∀ c ∈ s.data, isPluginIdChar c = true) → 1 ≤ s.data.length →
      s.data.length ≤ 64 → validatePluginId s = .ok ()) := by
  constructor
  · intro h
    unfold validatePluginId
    split
    · exact ⟨_, rfl⟩
    · split
      · exact ⟨_, rfl⟩
      · split
        · exact ⟨_, rfl⟩
        · split
          · exact ⟨_, rfl⟩
          · next h1 h2 h3 h4 =>
            exfalso
            rw [Bool.or_eq_true, not_or] at h4
            push_neg at h3
            rcases h with h | h | h | h
            · exact h4.1 h
            · exact h4.2 h
            · exact h3.1 h
            · exact h3.2 h
  · intro hchars hlen1 hlen2
    have hne : s.data ≠ [] := by
      intro hd
      rw [hd] at hlen1
      simp at hlen1
    unfold validatePluginId
    rw [if_neg (by simpa using hne)]
    rw [if_neg (by rw [byteLen_eq_length_of_pluginChars hchars]; omega)]
    rw [if_neg ?_, if_neg ?_, if_neg ?_]
    · intro hall
      have hall2 : s.data.all isPluginIdChar = true := by
        simpa [List.all_eq_true] using hchars
      simp [hall2] at hall
    · intro hsep
      rw [Bool.or_eq_true] at hsep
      rcases hsep with hsep | hsep <;>
        · simp only [strHas, List.any_eq_true, beq_iff_eq] at hsep
          obtain ⟨c, hc, rfl⟩ := hsep
          exact absurd (hchars _ hc) (by decide)
    · rintro (rfl | rfl)
      · exact absurd (hchars '.' (by decide)) (by decide)
      · exact absurd (hchars '.' (by decide)) (by decide)

theorem validatePluginId_spec_witness :
    (∃ e, validatePluginId "a/b" = .error e) ∧ validatePluginId "plugin-1" = .ok () := by
  refine ⟨(validatePluginId_spec "a/b").1 ?_, (validatePluginId_spec "plugin-1").2 ?_ ?_ ?_⟩
  · left; decide
  · decide
  · decide
  · decide

/-! ## Claim C4: the registry does not validate ids -/

/-- C4 counterexample: registering, into the empty registry, a plugin
whose id is `..` — an id `validate_plugin_id` rejects — succeeds and
puts `..` into the registry, so the claimed invariant fails on the
very first operation. -/
theorem register_admits_invalid_id_cex :
    validatePluginId ".." = .error "Plugin ID cannot be '.' or '..'"
    ∧ (registerOp [] ⟨"..", "Evil", "", true⟩).1 = .ok ()
    ∧ hasPlugin (registerOp [] ⟨"..", "Evil", "", true⟩).2 ".." = true := by
  refine ⟨by decide, rfl, by decide⟩

/-- C4 (amended): `register` performs no id validation at all — for
every registry state and every plugin entry, registration succeeds
and the entry's id (validated or not) is afterwards present in the
registry. -/
theorem register_no_validation (r : Registry) (p : PluginEntry) :
    (registerOp r p).1 = .ok () ∧ hasPlugin (registerOp r p).2 p.id = true := by
  exact ⟨rfl, containsKey_insertEntry_self r p.id p⟩

/-! ## Claim C7: register, membership and cardinality -/

/-- C7: after a successful `register(p)`, `has_plugin(p.id())` holds;
the count grows by exactly one when the id was absent and is
unchanged when the id was already present. -/
theorem register_count_spec (r : Registry) (p : PluginEntry) :
    hasPlugin (registerOp r p).2 p.id = true
    ∧ (containsKey r p.id = false → countOp (registerOp r p).2 = countOp r + 1)
    ∧ (containsKey r p.id = true → countOp (registerOp r p).2 = countOp r) := by
  refine ⟨containsKey_insertEntry_self r p.id p, ?_, ?_⟩
  · intro h
    exact length_insertEntry_of_not_contains p h
  · intro h
    exact length_insertEntry_of_contains p h

theorem register_count_spec_witness :
    hasPlugin (registerOp [] ⟨"x", "X", "", true⟩).2 "x" = true
    ∧ countOp (registerOp [] ⟨"x", "X", "", true⟩).2 = countOp ([] : Registry) + 1 := by
  refine ⟨(register_count_spec [] ⟨"x", "X", "", true⟩).1,
    (register_count_spec [] ⟨"x", "X", "", true⟩).2.1 (by decide)⟩

/-! ## Claim C8: unregister on an absent id -/

/-- C8: `unregister` on an id that is not registered fails with the
not-found error and leaves the registry (hence `count()`)
unchanged. -/
theorem unregister_absent_spec (r : Registry) (pluginId : String)
    (h : containsKey r pluginId = false) :
    (unregisterOp r pluginId).1 = .error ("Plugin '" ++ pluginId ++ "' not found")
    ∧ (unregisterOp r pluginId).2 = r
    ∧ countOp (unregisterOp r pluginId).2 = countOp r := by
  simp [unregisterOp, h]

theorem unregister_absent_spec_witness :
    (unregisterOp [("a", ⟨"a", "A", "", true⟩)] "ghost").1 =
      .error ("Plugin '" ++ "ghost" ++ "' not found")
    ∧ countOp (unregisterOp [("a", ⟨"a", "A", "", true⟩)] "ghost").2 =
      countOp [("a", ⟨"a", "A", "", true⟩)] := by
  refine ⟨(unregister_absent_spec _ "ghost" (by decide)).1,
    (unregister_absent_spec _ "ghost" (by decide)).2.2⟩

/-! ## Filesystem and resolver lemmas -/

theorem validatePluginId_error_msg {s e : String} (h : validatePluginId s = .error e) :
    e = "Plugin ID cannot be empty" ∨ e = "Plugin ID too long (max 64 characters)"
    ∨ e = "Plugin ID cannot be '.' or '..'"
    ∨ e = "Plugin ID cannot contain path separators"
    ∨ e = "Plugin ID can only contain letters, numbers, hyphens, and underscores" := by
  unfold validatePluginId at h
  split at h
  · injection h with h; exact .inl h.symm
  · split at h
    · injection h with h; exact .inr (.inl h.symm)
    · split at h
      · injection h with h; exact .inr (.inr (.inl h.symm))
      · split at h
        · injection h with h; exact .inr (.inr (.inr (.inl h.symm)))
        · split at h
          · injection h with h; exact .inr (.inr (.inr (.inr h.symm)))
          · cases h

theorem canonicalizeFs_ok {fs : Fs} {p c : List String}
    (h : canonicalizeFs fs p = .ok c) : c = resolvePath p := by
  unfold canonicalizeFs at h
  split at h
  · injection h with h; exact h.symm
  · cases h

theorem outsideCheck_fst_false {fs : Fs} {t d : List String}
    (h : isWithin (resolvePath d) (resolvePath t) = true) :
    (outsideCheck fs t d).1 = false := by
  unfold outsideCheck
  cases ht : canonicalizeFs fs t with
  | error e => simp
  | ok ct =>
    cases hd : canonicalizeFs fs d with
    | error e => simp
    | ok cd =>
      simp only []
      rw [canonicalizeFs_ok ht, canonicalizeFs_ok hd]
      simp [h]

theorem outsideCheck_events_canon {fs : Fs} {t d : List String} :
    ∀ e ∈ (outsideCheck fs t d).2, e.isCanon = true := by
  unfold outsideCheck
  cases ht : canonicalizeFs fs t with
  | error e => simp [FsEvent.isCanon]
  | ok ct =>
    cases hd : canonicalizeFs fs d with
    | error e => simp [FsEvent.isCanon]
    | ok cd => simp [FsEvent.isCanon]

theorem dirExistsB_createDirAll_self (fs : Fs) (p : List String) :
    dirExistsB (createDirAll fs p) p = true := by
  simp only [dirExistsB, createDirAll, List.any_append, Bool.or_eq_true]
  by_cases hin : fs.dirs.any (fun d => d == resolvePath p) = true
  · exact .inr hin
  · left
    rw [List.any_eq_true]
    refine ⟨resolvePath p, ?_, by simp⟩
    rw [List.mem_filter]
    exact ⟨self_mem_initialSegs _, by simp [hin]⟩

theorem files_createDirAll (fs : Fs) (p : List String) :
    (createDirAll fs p).files = fs.files := rfl

theorem fileAt_createDirAll (fs : Fs) (p q : List String) :
    fileAt (createDirAll fs p) q = fileAt fs q := rfl

theorem pathExistsB_createDirAll_self (fs : Fs) (p : List String) :
    pathExistsB (createDirAll fs p) p = true := by
  simp [pathExistsB, dirExistsB_createDirAll_self]

/-- Summary of `get_plugin_cache_dir` on a validated id: it returns
the derived directory, never touches files, ends with the directory
present, and emits at most a directory-creation event. -/
theorem getPluginCacheDirRun_spec (st : ApiState) (fs : Fs) (pluginId : String)
    (h : validatePluginId pluginId = .ok ()) :
    (getPluginCacheDirRun st fs pluginId).result = .ok (cacheDirOf st pluginId)
    ∧ (getPluginCacheDirRun st fs pluginId).fs.files = fs.files
    ∧ pathExistsB (getPluginCacheDirRun st fs pluginId).fs (cacheDirOf st pluginId) = true
    ∧ ((getPluginCacheDirRun st fs pluginId).events = []
      ∨ (getPluginCacheDirRun st fs pluginId).events = [.dirCreate (cacheDirOf st pluginId)]) := by
  unfold getPluginCacheDirRun
  rw [h]
  by_cases hex : pathExistsB fs (cacheDirOf st pluginId) = true
  · simp [hex]
  · simp only [Bool.not_eq_true] at hex
    simp [hex, files_createDirAll, pathExistsB_createDirAll_self]

theorem getPluginConfigDirRun_spec (st : ApiState) (fs : Fs) (pluginId : String)
    (h : validatePluginId pluginId = .ok ()) :
    (getPluginConfigDirRun st fs pluginId).result = .ok (configDirOf st pluginId)
    ∧ (getPluginConfigDirRun st fs pluginId).fs.files = fs.files
    ∧ pathExistsB (getPluginConfigDirRun st fs pluginId).fs (configDirOf st pluginId) = true
    ∧ ((getPluginConfigDirRun st fs pluginId).events = []
      ∨ (getPluginConfigDirRun st fs pluginId).events = [.dirCreate (configDirOf st pluginId)]) := by
  unfold getPluginConfigDirRun
  rw [h]
  by_cases hex : pathExistsB fs (configDirOf st pluginId) = true
  · simp [hex]
  · simp only [Bool.not_eq_true] at hex
    simp [hex, files_createDirAll, pathExistsB_createDirAll_self]

theorem parentPath_concat (l : List String) (a : String) :
    parentPath (l ++ [a]) = some l := by
  unfold parentPath
  rw [if_neg (by simp), List.dropLast_concat]

/-- Summary of `write_cache` on a validated key: the confinement
error never fires (the canonicalized parent of the joined path is the
cache directory itself), and the only file the operation touches is
`cache_dir/<key>`. -/
theorem writeCacheRun_spec (st : ApiState) (fs : Fs) (pluginId cacheKey : String)
    (data : List Nat) (hk : validateCacheKey cacheKey = .ok ()) :
    (writeCacheRun st fs pluginId cacheKey data).result ≠
      .error "Cache path is outside plugin cache directory"
    ∧ ∀ p, (FsEvent.fileWrite p ∈ (writeCacheRun st fs pluginId cacheKey data).events
        ∨ FsEvent.fileRead p ∈ (writeCacheRun st fs pluginId cacheKey data).events) →
      p = cacheDirOf st pluginId ++ [cacheKey] := by
  obtain ⟨hne, hslash, hbs, hdot, hdots⟩ := validateCacheKey_ok hk
  cases hid : validatePluginId pluginId with
  | error e =>
    have hmsg := validatePluginId_error_msg hid
    have hrun : writeCacheRun st fs pluginId cacheKey data = ⟨.error e, fs, []⟩ := by
      simp [writeCacheRun, hk, getPluginCacheDirRun, hid]
    rw [hrun]
    constructor
    · intro hc
      injection hc with hc
      rcases hmsg with rfl | rfl | rfl | rfl | rfl <;> exact absurd hc (by decide)
    · intro p hp
      simp at hp
  | ok u =>
    cases u
    obtain ⟨hres, hfiles, hexists, hev⟩ := getPluginCacheDirRun_spec st fs pluginId hid
    cases hg : getPluginCacheDirRun st fs pluginId with
    | mk res fs1 ev1 =>
      rw [hg] at hres hfiles hexists hev
      simp only [] at hres hfiles hexists hev
      subst hres
      have hjoin : pathJoinStr (cacheDirOf st pluginId) cacheKey =
          cacheDirOf st pluginId ++ [cacheKey] :=
        pathJoinStr_single _ hne hslash
      have hchk : (outsideCheck fs1 (cacheDirOf st pluginId) (cacheDirOf st pluginId)).1
          = false :=
        outsideCheck_fst_false (isWithin_refl _)
      have hrun : writeCacheRun st fs pluginId cacheKey data =
          ⟨.ok (), fsWrite fs1 (cacheDirOf st pluginId ++ [cacheKey]) (.bytes data),
            ev1 ++ (outsideCheck fs1 (cacheDirOf st pluginId) (cacheDirOf st pluginId)).2
              ++ [.fileWrite (cacheDirOf st pluginId ++ [cacheKey])]⟩ := by
        simp only [writeCacheRun, hk, hg, hjoin, parentPath_concat, hchk]
        simp
      rw [hrun]
      refine ⟨by simp, ?_⟩
      intro p hp
      simp only [List.mem_append] at hp
      have hev1 : ∀ x, x ∈ ev1 → FsEvent.fileWrite p ≠ x ∧ FsEvent.fileRead p ≠ x := by
        intro x hx
        rcases hev with rfl | rfl
        · simp at hx
        · simp at hx
          subst hx
          exact ⟨by simp, by simp⟩
      rcases hp with ((hp | hp) | hp) | ((hp | hp) | hp)
      · exact absurd rfl (hev1 _ hp).1
      · have := outsideCheck_events_canon _ hp
        simp [FsEvent.isCanon] at this
      · simp at hp; exact hp
      · exact absurd rfl (hev1 _ hp).2
      · have := outsideCheck_events_canon _ hp
        simp [FsEvent.isCanon] at this
      · simp at hp

/-- Summary of `read_cache` on a validated key: the confinement error
never fires and the only file the operation touches is
`cache_dir/<key>`. -/
theorem readCacheRun_spec (st : ApiState) (fs : Fs) (pluginId cacheKey : String)
    (hk : validateCacheKey cacheKey = .ok ()) :
    (readCacheRun st fs pluginId cacheKey).result ≠
      .error "Cache path is outside plugin cache directory"
    ∧ ∀ p, (FsEvent.fileWrite p ∈ (readCacheRun st fs pluginId cacheKey).events
        ∨ FsEvent.fileRead p ∈ (readCacheRun st fs pluginId cacheKey).events) →
      p = cacheDirOf st pluginId ++ [cacheKey] := by
  obtain ⟨hne, hslash, hbs, hdot, hdots⟩ := validateCacheKey_ok hk
  cases hid : validatePluginId pluginId with
  | error e =>
    have hmsg := validatePluginId_error_msg hid
    have hrun : readCacheRun st fs pluginId cacheKey = ⟨.error e, fs, []⟩ := by
      simp [readCacheRun, hk, getPluginCacheDirRun, hid]
    rw [hrun]
    constructor
    · intro hc
      injection hc with hc
      rcases hmsg with rfl | rfl | rfl | rfl | rfl <;> exact absurd hc (by decide)
    · intro p hp
      simp at hp
  | ok u =>
    cases u
    obtain ⟨hres, hfiles, hexists, hev⟩ := getPluginCacheDirRun_spec st fs pluginId hid
    cases hg : getPluginCacheDirRun st fs pluginId with
    | mk res fs1 ev1 =>
      rw [hg] at hres hfiles hexists hev
      simp only [] at hres hfiles hexists hev
      subst hres
      have hjoin : pathJoinStr (cacheDirOf st pluginId) cacheKey =
          cacheDirOf st pluginId ++ [cacheKey] :=
        pathJoinStr_single _ hne hslash
      have hwithin : isWithin (resolvePath (cacheDirOf st pluginId))
          (resolvePath (cacheDirOf st pluginId ++ [cacheKey])) = true := by
        rw [resolvePath_append_normal _ hdot hdots]
        exact isWithin_append _ _
      have hchk : (outsideCheck fs1 (cacheDirOf st pluginId ++ [cacheKey])
          (cacheDirOf st pluginId)).1 = false :=
        outsideCheck_fst_false hwithin
      have hW : ∀ q : List String,
          FsEvent.fileWrite q ∉ ev1
          ∧ FsEvent.fileWrite q ∉ (outsideCheck fs1
              (cacheDirOf st pluginId ++ [cacheKey]) (cacheDirOf st pluginId)).2
          ∧ FsEvent.fileRead q ∉ ev1
          ∧ FsEvent.fileRead q ∉ (outsideCheck fs1
              (cacheDirOf st pluginId ++ [cacheKey]) (cacheDirOf st pluginId)).2 := by
        intro q
        refine ⟨?_, ?_, ?_, ?_⟩ <;> intro hx
        · rcases hev with rfl | rfl
          · simp at hx
          · simp at hx
        · have := outsideCheck_events_canon _ hx
          simp [FsEvent.isCanon] at this
        · rcases hev with rfl | rfl
          · simp at hx
          · simp at hx
        · have := outsideCheck_events_canon _ hx
          simp [FsEvent.isCanon] at this
      constructor
      · simp only [readCacheRun, hk, hg, hjoin, hchk, Bool.false_eq_true, if_false]
        split
        · intro hc
          simp only [] at hc
          injection hc with hc
          exact absurd hc (by decide)
        · split
          · intro hc
            simp only [] at hc
            cases hc
          · intro hc
            simp only [] at hc
            cases hc
          · intro hc
            simp only [] at hc
            injection hc with hc
            exact absurd hc (by decide)
      · intro p hp
        simp only [readCacheRun, hk, hg, hjoin, hchk, Bool.false_eq_true, if_false] at hp
        obtain ⟨hw1, hw2, hr1, hr2⟩ := hW p
        split at hp
        · simp at hp
          tauto
        · split at hp <;> simp at hp <;> tauto

/-! ## Claim C1: accepted cache keys stay confined -/

/-- C1: every key accepted by `validate_cache_key` is a single normal
path component, so joining it onto a cache directory and resolving
yields `cache_dir/<key>`, a path inside the directory; and
`read_cache`/`write_cache` only ever read or write that in-directory
path. -/
theorem cacheKey_confinement (cacheKey : String)
    (hk : validateCacheKey cacheKey = .ok ()) :
    (∀ dir : List String,
      resolvePath (pathJoinStr dir cacheKey) = resolvePath dir ++ [cacheKey]
      ∧ isWithin (resolvePath dir) (resolvePath (pathJoinStr dir cacheKey)) = true)
    ∧ (∀ (st : ApiState) (fs : Fs) (pluginId : String) (data : List Nat)
        (p : List String),
        (FsEvent.fileWrite p ∈ (writeCacheRun st fs pluginId cacheKey data).events
          ∨ FsEvent.fileRead p ∈ (writeCacheRun st fs pluginId cacheKey data).events) →
        isWithin (resolvePath (cacheDirOf st pluginId)) (resolvePath p) = true)
    ∧ (∀ (st : ApiState) (fs : Fs) (pluginId : String) (p : List String),
        (FsEvent.fileWrite p ∈ (readCacheRun st fs pluginId cacheKey).events
          ∨ FsEvent.fileRead p ∈ (readCacheRun st fs pluginId cacheKey).events) →
        isWithin (resolvePath (cacheDirOf st pluginId)) (resolvePath p) = true) := by
  obtain ⟨hne, hslash, hbs, hdot, hdots⟩ := validateCacheKey_ok hk
  have hjoin : ∀ dir : List String, pathJoinStr dir cacheKey = dir ++ [cacheKey] :=
    fun dir => pathJoinStr_single dir hne hslash
  have hres : ∀ dir : List String,
      resolvePath (dir ++ [cacheKey]) = resolvePath dir ++ [cacheKey] :=
    fun dir => resolvePath_append_normal dir hdot hdots
  refine ⟨fun dir => ⟨by rw [hjoin, hres], ?_⟩, ?_, ?_⟩
  · rw [hjoin, hres]
    exact isWithin_append _ _
  · intro st fs pluginId data p hp
    have hp2 := (writeCacheRun_spec st fs pluginId cacheKey data hk).2 p hp
    subst hp2
    rw [hres]
    exact isWithin_append _ _
  · intro st fs pluginId p hp
    have hp2 := (readCacheRun_spec st fs pluginId cacheKey hk).2 p hp
    subst hp2
    rw [hres]
    exact isWithin_append _ _

theorem cacheKey_confinement_witness :
    resolvePath (pathJoinStr ["r", "cache", "plugins", "p"] "blob.bin") =
      resolvePath ["r", "cache", "plugins", "p"] ++ ["blob.bin"]
    ∧ isWithin (resolvePath ["r", "cache", "plugins", "p"])
      (resolvePath (pathJoinStr ["r", "cache", "plugins", "p"] "blob.bin")) = true :=
  (cacheKey_confinement "blob.bin" (by decide)).1 ["r", "cache", "plugins", "p"]

/-! ## Claim C10: the confinement error branch of `write_cache` is
unreachable for accepted keys -/

/-- C10: for every accepted cache key, the parent of the joined cache
path is the cache directory itself, so the canonicalized-parent
check of `write_cache` can never fail and the
"Cache path is outside plugin cache directory" branch is
unreachable. -/
theorem writeCache_outside_unreachable (st : ApiState) (fs : Fs)
    (pluginId cacheKey : String) (data : List Nat)
    (hk : validateCacheKey cacheKey = .ok ()) :
    parentPath (pathJoinStr (cacheDirOf st pluginId) cacheKey) =
      some (cacheDirOf st pluginId)
    ∧ (writeCacheRun st fs pluginId cacheKey data).result ≠
      .error "Cache path is outside plugin cache directory" := by
  obtain ⟨hne, hslash, hbs, hdot, hdots⟩ := validateCacheKey_ok hk
  constructor
  · rw [pathJoinStr_single _ hne hslash]
    exact parentPath_concat _ _
  · exact (writeCacheRun_spec st fs pluginId cacheKey data hk).1

theorem writeCache_outside_unreachable_witness :
    parentPath (pathJoinStr (cacheDirOf (ApiState.new ["a"]) "p") "k") =
      some (cacheDirOf (ApiState.new ["a"]) "p")
    ∧ (writeCacheRun (ApiState.new ["a"]) ⟨[], []⟩ "p" "k" [1, 2]).result ≠
      .error "Cache path is outside plugin cache directory" :=
  writeCache_outside_unreachable (ApiState.new ["a"]) ⟨[], []⟩ "p" "k" [1, 2] (by decide)

/-! ## Claim C9: `clear_cache` -/

/-- C9 counterexample: starting from a filesystem where the plugin
cache directory has never existed, `clear_cache` succeeds but changes
the filesystem — the directory exists afterwards, because
`clear_cache` resolves it through `get_plugin_cache_dir`, which
creates it, and then deletes and recreates it; it is not a no-op. -/
theorem clearCache_not_noop_cex :
    (clearCacheRun (ApiState.new ["a"]) ⟨[], []⟩ "p").result = .ok ()
    ∧ dirExistsB (⟨[], []⟩ : Fs) (cacheDirOf (ApiState.new ["a"]) "p") = false
    ∧ dirExistsB (clearCacheRun (ApiState.new ["a"]) ⟨[], []⟩ "p").fs
        (cacheDirOf (ApiState.new ["a"]) "p") = true
    ∧ (clearCacheRun (ApiState.new ["a"]) ⟨[], []⟩ "p").fs ≠ (⟨[], []⟩ : Fs) := by
  refine ⟨by decide, by decide, by decide, by decide⟩

/-- C9 (amended): for every valid plugin id, `clear_cache` succeeds
and leaves an existing, empty cache directory: every file under the
cache directory is removed, files elsewhere are untouched, and the
directory exists afterwards even if it did not before (the resolver
creates it first, so the "directory never existed" case is not a
filesystem no-op). -/
theorem clearCache_spec (st : ApiState) (fs : Fs) (pluginId : String)
    (hid : validatePluginId pluginId = .ok ()) :
    (clearCacheRun st fs pluginId).result = .ok ()
    ∧ dirExistsB (clearCacheRun st fs pluginId).fs (cacheDirOf st pluginId) = true
    ∧ (∀ p d, (p, d) ∈ (clearCacheRun st fs pluginId).fs.files →
        isWithin (resolvePath (cacheDirOf st pluginId)) p = false)
    ∧ (∀ p d, isWithin (resolvePath (cacheDirOf st pluginId)) p = false →
        ((p, d) ∈ (clearCacheRun st fs pluginId).fs.files ↔ (p, d) ∈ fs.files)) := by
  obtain ⟨hres, hfiles, hexists, hev⟩ := getPluginCacheDirRun_spec st fs pluginId hid
  cases hg : getPluginCacheDirRun st fs pluginId with
  | mk res fs1 ev1 =>
    rw [hg] at hres hfiles hexists
    simp only [] at hres hfiles hexists
    subst hres
    have hrun : clearCacheRun st fs pluginId =
        ⟨.ok (), createDirAll (removeDirAll fs1 (cacheDirOf st pluginId))
            (cacheDirOf st pluginId),
          ev1 ++ [.dirRemove (cacheDirOf st pluginId),
            .dirCreate (cacheDirOf st pluginId)]⟩ := by
      simp [clearCacheRun, hg, hexists]
    rw [hrun]
    refine ⟨rfl, dirExistsB_createDirAll_self _ _, ?_, ?_⟩
    · intro p d hp
      rw [files_createDirAll] at hp
      simp only [removeDirAll] at hp
      rw [List.mem_filter] at hp
      simpa using hp.2
    · intro p d hfalse
      rw [files_createDirAll]
      simp only [removeDirAll]
      rw [List.mem_filter, hfiles]
      simp [hfalse]

theorem clearCache_spec_witness :
    (clearCacheRun (ApiState.new ["b"]) ⟨[], []⟩ "q").result = .ok ()
    ∧ dirExistsB (clearCacheRun (ApiState.new ["b"]) ⟨[], []⟩ "q").fs
        (cacheDirOf (ApiState.new ["b"]) "q") = true :=
  ⟨(clearCache_spec (ApiState.new ["b"]) ⟨[], []⟩ "q" (by decide)).1,
    (clearCache_spec (ApiState.new ["b"]) ⟨[], []⟩ "q" (by decide)).2.1⟩

/-! ## Config store lemmas -/

theorem getPluginConfigDirRun_fs_cases (st : ApiState) (fs : Fs) (pluginId : String) :
    (getPluginConfigDirRun st fs pluginId).fs = fs
    ∨ (getPluginConfigDirRun st fs pluginId).fs =
        createDirAll fs (configDirOf st pluginId) := by
  unfold getPluginConfigDirRun
  cases validatePluginId pluginId with
  | error e => simp
  | ok u =>
    by_cases hex : pathExistsB fs (configDirOf st pluginId) = true
    · simp [hex]
    · simp only [Bool.not_eq_true] at hex
      simp [hex]

theorem pathExistsB_createDirAll_longer {fs : Fs} {d q : List String}
    (h : pathExistsB fs q = false)
    (hlen : (resolvePath d).length < (resolvePath q).length) :
    pathExistsB (createDirAll fs d) q = false := by
  simp only [pathExistsB, Bool.or_eq_false_iff] at h ⊢
  refine ⟨?_, ?_⟩
  · simp only [dirExistsB, createDirAll, List.any_append, Bool.or_eq_false_iff]
    refine ⟨?_, h.1⟩
    rw [List.any_eq_false]
    intro q2 hq2
    rw [List.mem_filter] at hq2
    have hle := initialSegs_length_le hq2.1
    intro hbeq
    rw [beq_iff_eq] at hbeq
    subst hbeq
    omega
  · rw [fileAt_createDirAll]
    exact h.2

/-- Facts about the derived config file name `<name>.json` for a
validated config name: nonempty, separator-free, and not a traversal
component. -/
theorem configFileName_facts {name : String} (h : validateConfigName name = .ok ()) :
    (name ++ ".json").data ≠ [] ∧ (∀ c ∈ (name ++ ".json").data, c ≠ '/')
    ∧ (name ++ ".json") ≠ "." ∧ (name ++ ".json") ≠ ".." := by
  obtain ⟨hne, hslash⟩ := validateConfigName_ok h
  refine ⟨?_, ?_, ?_, ?_⟩
  · rw [data_append]
    simp
  · intro c hc
    rw [data_append] at hc
    rcases List.mem_append.mp hc with hc | hc
    · exact hslash c hc
    · simp only [show (".json" : String).data = ['.', 'j', 's', 'o', 'n'] from rfl,
        List.mem_cons, List.not_mem_nil] at hc
      rcases hc with rfl | rfl | rfl | rfl | rfl | hc
      · decide
      · decide
      · decide
      · decide
      · decide
      · cases hc
  · intro heq
    have hlen := congrArg (fun s : String => s.data.length) heq
    simp only [data_append] at hlen
    simp at hlen
  · intro heq
    have hlen := congrArg (fun s : String => s.data.length) heq
    simp only [data_append] at hlen
    simp at hlen

/-- The config path joined by `load_config`/`save_config` is the
direct child `config_dir/<name>.json`. -/
theorem configPath_join {name : String} (dir : List String)
    (h : validateConfigName name = .ok ()) :
    pathJoinStr dir (name ++ ".json") = dir ++ [name ++ ".json"] := by
  obtain ⟨hne, hslash, _, _⟩ := configFileName_facts h
  exact pathJoinStr_single dir hne hslash

/-! ## Claim C6: loading a never-saved config -/

/-- C6: for every valid plugin id and valid config name whose backing
file `config_dir/<name>.json` is absent, `load_config` returns the
empty JSON object rather than an error. -/
theorem loadConfig_absent_returns_empty (st : ApiState) (fs : Fs)
    (pluginId configName : String)
    (hid : validatePluginId pluginId = .ok ())
    (hname : validateConfigName configName = .ok ())
    (habsent : pathExistsB fs
      (configDirOf st pluginId ++ [configName ++ ".json"]) = false) :
    (loadConfigRun st fs pluginId configName).result = .ok (.obj []) := by
  obtain ⟨hres, hfiles, hexists, hev⟩ := getPluginConfigDirRun_spec st fs pluginId hid
  have hcases := getPluginConfigDirRun_fs_cases st fs pluginId
  cases hg : getPluginConfigDirRun st fs pluginId with
  | mk res fs1 ev1 =>
    rw [hg] at hres hcases
    simp only [] at hres hcases
    subst hres
    have habs1 : pathExistsB fs1
        (configDirOf st pluginId ++ [configName ++ ".json"]) = false := by
      rcases hcases with rfl | rfl
      · exact habsent
      · apply pathExistsB_createDirAll_longer habsent
        obtain ⟨_, _, hdot, hdots⟩ := configFileName_facts hname
        rw [resolvePath_append_normal _ hdot hdots]
        simp
    have hjoin := configPath_join (configDirOf st pluginId) hname
    simp only [loadConfigRun, hname, hg, hjoin, habs1]
    simp

theorem loadConfig_absent_returns_empty_witness :
    (loadConfigRun (ApiState.new ["a"]) ⟨[], []⟩ "p" "settings").result =
      .ok (.obj []) :=
  loadConfig_absent_returns_empty (ApiState.new ["a"]) ⟨[], []⟩ "p" "settings"
    (by decide) (by decide) (by decide)

/-! ## Claim C2: no canonicalization check in the config store -/

theorem saveConfigRun_events (st : ApiState) (fs : Fs)
    (pluginId configName : String) (doc : Json)
    (hname : validateConfigName configName = .ok ()) :
    ((saveConfigRun st fs pluginId configName doc).events.any FsEvent.isCanon = false)
    ∧ ∀ p, (FsEvent.fileWrite p ∈ (saveConfigRun st fs pluginId configName doc).events
        ∨ FsEvent.fileRead p ∈ (saveConfigRun st fs pluginId configName doc).events) →
      p = configDirOf st pluginId ++ [configName ++ ".json"] := by
  cases hid : validatePluginId pluginId with
  | error e =>
    have hrun : saveConfigRun st fs pluginId configName doc = ⟨.error e, fs, []⟩ := by
      simp [saveConfigRun, hname, getPluginConfigDirRun, hid]
    rw [hrun]
    exact ⟨rfl, by intro p hp; simp at hp⟩
  | ok u =>
    cases u
    obtain ⟨hres, hfiles, hexists, hev⟩ := getPluginConfigDirRun_spec st fs pluginId hid
    cases hg : getPluginConfigDirRun st fs pluginId with
    | mk res fs1 ev1 =>
      rw [hg] at hres hev
      simp only [] at hres hev
      subst hres
      have hjoin := configPath_join (configDirOf st pluginId) hname
      have hrun : saveConfigRun st fs pluginId configName doc =
          ⟨.ok (), fsWrite fs1 (configDirOf st pluginId ++ [configName ++ ".json"])
              (.text (toStringPretty doc)),
            ev1 ++ [.fileWrite (configDirOf st pluginId ++ [configName ++ ".json"])]⟩ := by
        simp only [saveConfigRun, hname, hg, hjoin]
      rw [hrun]
      constructor
      · simp only [List.any_append, Bool.or_eq_false_iff]
        refine ⟨?_, by simp [FsEvent.isCanon]⟩
        rcases hev with rfl | rfl
        · rfl
        · simp [FsEvent.isCanon]
      · intro p hp
        rcases hp with hp | hp <;> rcases List.mem_append.mp hp with hx | hx
        · rcases hev with rfl | rfl
          · simp at hx
          · simp at hx
        · simpa using hx
        · rcases hev with rfl | rfl
          · simp at hx
          · simp at hx
        · simp at hx

theorem loadConfigRun_events (st : ApiState) (fs : Fs)
    (pluginId configName : String)
    (hname : validateConfigName configName = .ok ()) :
    ((loadConfigRun st fs pluginId configName).events.any FsEvent.isCanon = false)
    ∧ ∀ p, (FsEvent.fileWrite p ∈ (loadConfigRun st fs pluginId configName).events
        ∨ FsEvent.fileRead p ∈ (loadConfigRun st fs pluginId configName).events) →
      p = configDirOf st pluginId ++ [configName ++ ".json"] := by
  cases hid : validatePluginId pluginId with
  | error e =>
    have hrun : loadConfigRun st fs pluginId configName = ⟨.error e, fs, []⟩ := by
      simp [loadConfigRun, hname, getPluginConfigDirRun, hid]
    rw [hrun]
    exact ⟨rfl, by intro p hp; simp at hp⟩
  | ok u =>
    cases u
    obtain ⟨hres, hfiles, hexists, hev⟩ := getPluginConfigDirRun_spec st fs pluginId hid
    cases hg : getPluginConfigDirRun st fs pluginId with
    | mk res fs1 ev1 =>
      rw [hg] at hres hev
      simp only [] at hres hev
      subst hres
      have hjoin := configPath_join (configDirOf st pluginId) hname
      have hev_canon : ev1.any FsEvent.isCanon = false := by
        rcases hev with rfl | rfl
        · rfl
        · simp [FsEvent.isCanon]
      have hev_mem : ∀ p, FsEvent.fileWrite p ∉ ev1 ∧ FsEvent.fileRead p ∉ ev1 := by
        intro p
        rcases hev with rfl | rfl
        · simp
        · simp
      have h2 : (ev1 ++ [FsEvent.fileRead
          (configDirOf st pluginId ++ [configName ++ ".json"])]).any
          FsEvent.isCanon = false := by
        simp [List.any_append, hev_canon, FsEvent.isCanon]
      constructor
      · simp only [loadConfigRun, hname, hg, hjoin]
        split
        · exact hev_canon
        · split
          all_goals first
          | exact h2
          | (split <;> exact h2)
      · intro p hp
        simp only [loadConfigRun, hname, hg, hjoin] at hp
        obtain ⟨hw, hr⟩ := hev_mem p
        have hmem2 : (FsEvent.fileWrite p ∈ ev1 ++
              [FsEvent.fileRead (configDirOf st pluginId ++ [configName ++ ".json"])]
            ∨ FsEvent.fileRead p ∈ ev1 ++
              [FsEvent.fileRead (configDirOf st pluginId ++ [configName ++ ".json"])]) →
            p = configDirOf st pluginId ++ [configName ++ ".json"] := by
          intro hx
          rcases hx with hx | hx <;> rcases List.mem_append.mp hx with hy | hy
          · exact absurd hy hw
          · simp at hy
          · exact absurd hy hr
          · simpa using hy
        split at hp
        · rcases hp with hp | hp
          · exact absurd hp hw
          · exact absurd hp hr
        · split at hp
          all_goals first
          | exact hmem2 hp
          | (split at hp <;> exact hmem2 hp)

/-- C2 counterexample: a concrete `save_config` run, with a valid
plugin id and a valid config name, performs a file write while making
no `canonicalize` call at all — so the joined path's
symlink-resolved descendant property is not verified before the
filesystem is written, contrary to the claim. -/
theorem saveConfig_no_canon_check_cex :
    ((saveConfigRun (ApiState.new ["a"]) ⟨[], []⟩ "p" "settings" .null).events.any
        FsEvent.isFileAccess) = true
    ∧ ((saveConfigRun (ApiState.new ["a"]) ⟨[], []⟩ "p" "settings" .null).events.any
        FsEvent.isCanon) = false := by
  refine ⟨by decide, by decide⟩

/-- C2 (amended): `load_config` and `save_config` perform no
canonicalization-based descendant verification at all; confinement
of the config store rests solely on `validate_config_name`, which
forces the joined path to be the direct child
`config_dir/<name>.json`, the only file either operation ever reads
or writes, and that path lies inside the config directory. -/
theorem configStore_no_canon_check (st : ApiState) (fs : Fs)
    (pluginId configName : String) (doc : Json)
    (hname : validateConfigName configName = .ok ()) :
    ((saveConfigRun st fs pluginId configName doc).events.any FsEvent.isCanon = false)
    ∧ ((loadConfigRun st fs pluginId configName).events.any FsEvent.isCanon = false)
    ∧ (∀ p, (FsEvent.fileWrite p ∈ (saveConfigRun st fs pluginId configName doc).events
        ∨ FsEvent.fileRead p ∈ (saveConfigRun st fs pluginId configName doc).events
        ∨ FsEvent.fileWrite p ∈ (loadConfigRun st fs pluginId configName).events
        ∨ FsEvent.fileRead p ∈ (loadConfigRun st fs pluginId configName).events) →
      p = configDirOf st pluginId ++ [configName ++ ".json"]
      ∧ isWithin (resolvePath (configDirOf st pluginId)) (resolvePath p) = true) := by
  obtain ⟨hsc, hsm⟩ := saveConfigRun_events st fs pluginId configName doc hname
  obtain ⟨hlc, hlm⟩ := loadConfigRun_events st fs pluginId configName hname
  refine ⟨hsc, hlc, ?_⟩
  intro p hp
  have hpe : p = configDirOf st pluginId ++ [configName ++ ".json"] := by
    rcases hp with hp | hp | hp | hp
    · exact hsm p (.inl hp)
    · exact hsm p (.inr hp)
    · exact hlm p (.inl hp)
    · exact hlm p (.inr hp)
  refine ⟨hpe, ?_⟩
  subst hpe
  obtain ⟨_, _, hdot, hdots⟩ := configFileName_facts hname
  rw [resolvePath_append_normal _ hdot hdots]
  exact isWithin_append _ _

theorem configStore_no_canon_check_witness :
    ((saveConfigRun (ApiState.new ["b"]) ⟨[], []⟩ "q" "cfg" .null).events.any
        FsEvent.isCanon = false)
    ∧ ((loadConfigRun (ApiState.new ["b"]) ⟨[], []⟩ "q" "cfg").events.any
        FsEvent.isCanon = false) :=
  ⟨(configStore_no_canon_check (ApiState.new ["b"]) ⟨[], []⟩ "q" "cfg" .null
      (by decide)).1,
    (configStore_no_canon_check (ApiState.new ["b"]) ⟨[], []⟩ "q" "cfg" .null
      (by decide)).2.1⟩

/-! ## Character and digit lemmas for the JSON codec -/

theorem char_toNat_ofNat {n : Nat} (h : n.isValidChar) : (Char.ofNat n).toNat = n := by
  unfold Char.ofNat
  rw [dif_pos h]
  rfl

theorem char_ofNat_toNat {c : Char} (h : c.toNat < 0xd800) : Char.ofNat c.toNat = c := by
  have hv : c.toNat.isValidChar := Or.inl h
  unfold Char.ofNat
  rw [dif_pos hv]
  apply Char.ext
  rfl

theorem char_eq_of_toNat_eq {a b : Char} (h : a.toNat = b.toNat) : a = b :=
  Char.ext (UInt32.ext h)

theorem char_ne_of_toNat_ne {a b : Char} (h : a.toNat ≠ b.toNat) : a ≠ b :=
  fun he => h (by rw [he])

theorem digitChar_toNat {d : Nat} (h : d < 10) : (digitChar d).toNat = 48 + d := by
  unfold digitChar
  exact char_toNat_ofNat (Or.inl (by omega))

theorem isDigitCh_digitChar {d : Nat} (h : d < 10) : isDigitCh (digitChar d) = true := by
  simp only [isDigitCh, digitChar_toNat h, decide_eq_true_eq]
  omega

theorem isDigitCh_toNat {c : Char} (h : isDigitCh c = true) :
    48 ≤ c.toNat ∧ c.toNat ≤ 57 := by
  simpa [isDigitCh] using h

theorem isWsCh_eq_false_of_digit {c : Char} (h : isDigitCh c = true) :
    isWsCh c = false := by
  obtain ⟨h1, h2⟩ := isDigitCh_toNat h
  have hsp : (' ').toNat = 32 := rfl
  have hnl : ('\n').toNat = 10 := rfl
  have htb : ('\t').toNat = 9 := rfl
  have hcr : ('\r').toNat = 13 := rfl
  simp only [isWsCh, Bool.or_eq_false_iff, beq_eq_false_iff_ne, ne_eq]
  refine ⟨⟨⟨?_, ?_⟩, ?_⟩, ?_⟩ <;> · apply char_ne_of_toNat_ne; omega

theorem natCharsRev_facts (n : Nat) :
    natCharsRev n ≠ [] ∧ (∀ c ∈ natCharsRev n, isDigitCh c = true) ∧
      (natCharsRev n).foldr (fun c a => 10 * a + (c.toNat - 48)) 0 = n := by
  induction n using Nat.strong_induction_on with
  | _ n ih =>
    by_cases h : n < 10
    · rw [natCharsRev, if_pos h]
      refine ⟨by simp, ?_, ?_⟩
      · intro c hc
        rw [List.mem_singleton] at hc
        subst hc
        exact isDigitCh_digitChar h
      · simp [digitChar_toNat h]
    · have hlt : n / 10 < n := Nat.div_lt_self (by omega) (by omega)
      obtain ⟨h1, h2, h3⟩ := ih (n / 10) hlt
      rw [natCharsRev, if_neg h]
      refine ⟨by simp, ?_, ?_⟩
      · intro c hc
        rcases List.mem_cons.mp hc with rfl | hc
        · exact isDigitCh_digitChar (by omega)
        · exact h2 c hc
      · simp only [List.foldr_cons, h3, digitChar_toNat (show n % 10 < 10 by omega)]
        omega

theorem natChars_ne_nil (n : Nat) : natChars n ≠ [] := by
  unfold natChars
  intro h
  rw [List.reverse_eq_nil_iff] at h
  exact (natCharsRev_facts n).1 h

theorem natChars_digits (n : Nat) : ∀ c ∈ natChars n, isDigitCh c = true := by
  intro c hc
  rw [natChars, List.mem_reverse] at hc
  exact (natCharsRev_facts n).2.1 c hc

theorem digitsVal_natChars (n : Nat) : digitsVal (natChars n) = n := by
  unfold natChars digitsVal
  rw [List.foldl_reverse]
  exact (natCharsRev_facts n).2.2

theorem spanDigits_append {ds rest : List Char}
    (hds : ∀ c ∈ ds, isDigitCh c = true)
    (hrest : ∀ c cs, rest = c :: cs → isDigitCh c = false) :
    spanDigits (ds ++ rest) = (ds, rest) := by
  induction ds with
  | nil =>
    simp only [List.nil_append]
    cases rest with
    | nil => rfl
    | cons c cs => simp [spanDigits, hrest c cs rfl]
  | cons c cs ih =>
    have ih2 := ih (fun x hx => hds x (by simp [hx]))
    simp [spanDigits, hds c (by simp), ih2]

/-! ## Whitespace lemmas -/

theorem skipWs_append_ws {w : List Char} (hw : ∀ c ∈ w, isWsCh c = true)
    (l : List Char) : skipWs (w ++ l) = skipWs l := by
  induction w with
  | nil => rfl
  | cons c cs ih =>
    rw [List.cons_append, skipWs, if_pos (hw c (by simp))]
    exact ih (fun x hx => hw x (by simp [hx]))

theorem skipWs_cons_not_ws {c : Char} {cs : List Char} (hc : isWsCh c = false) :
    skipWs (c :: cs) = c :: cs := by
  rw [skipWs, if_neg (by simp [hc])]

theorem indentChars_ws (n : Nat) : ∀ c ∈ indentChars n, isWsCh c = true := by
  intro c hc
  rw [indentChars, List.mem_replicate] at hc
  rw [hc.2]
  decide

theorem parseVal_ws {w : List Char} (hw : ∀ c ∈ w, isWsCh c = true)
    (fuel : Nat) (l : List Char) : parseVal fuel (w ++ l) = parseVal fuel l := by
  cases fuel with
  | zero => rfl
  | succ f => simp only [parseVal, skipWs_append_ws hw]

theorem parseItems_ws {w : List Char} (hw : ∀ c ∈ w, isWsCh c = true)
    (fuel : Nat) (l : List Char) : parseItems fuel (w ++ l) = parseItems fuel l := by
  cases fuel with
  | zero => rfl
  | succ f => simp only [parseItems, parseVal_ws hw]

theorem parseFields_ws {w : List Char} (hw : ∀ c ∈ w, isWsCh c = true)
    (fuel : Nat) (l : List Char) : parseFields fuel (w ++ l) = parseFields fuel l := by
  cases fuel with
  | zero => rfl
  | succ f => simp only [parseFields, skipWs_append_ws hw]

/-! ## String escape round-trip -/

theorem hexVal_hexDigitChar {d : Nat} (h : d < 16) : hexVal (hexDigitChar d) = some d := by
  unfold hexVal hexDigitChar
  by_cases h10 : d < 10
  · rw [if_pos h10, char_toNat_ofNat (Or.inl (by omega))]
    rw [if_pos (by omega)]
    congr 1
    omega
  · rw [if_neg h10, char_toNat_ofNat (Or.inl (by omega))]
    rw [if_neg (by omega), if_pos (by omega)]
    congr 1
    omega

theorem parseStrBody_quote (tail : List Char) :
    parseStrBody ('"' :: tail) = some ([], tail) := by
  rw [parseStrBody.eq_def]
  rfl

theorem parseStrBody_esc_quote (tail : List Char) :
    parseStrBody ('\\' :: '"' :: tail) =
      (parseStrBody tail).map (fun r => ('"' :: r.1, r.2)) := by
  rw [parseStrBody.eq_def]
  rfl

theorem parseStrBody_esc_bslash (tail : List Char) :
    parseStrBody ('\\' :: '\\' :: tail) =
      (parseStrBody tail).map (fun r => ('\\' :: r.1, r.2)) := by
  rw [parseStrBody.eq_def]
  rfl

theorem parseStrBody_esc_b (tail : List Char) :
    parseStrBody ('\\' :: 'b' :: tail) =
      (parseStrBody tail).map (fun r => (Char.ofNat 8 :: r.1, r.2)) := by
  rw [parseStrBody.eq_def]
  rfl

theorem parseStrBody_esc_t (tail : List Char) :
    parseStrBody ('\\' :: 't' :: tail) =
      (parseStrBody tail).map (fun r => (Char.ofNat 9 :: r.1, r.2)) := by
  rw [parseStrBody.eq_def]
  rfl

theorem parseStrBody_esc_n (tail : List Char) :
    parseStrBody ('\\' :: 'n' :: tail) =
      (parseStrBody tail).map (fun r => (Char.ofNat 10 :: r.1, r.2)) := by
  rw [parseStrBody.eq_def]
  rfl

theorem parseStrBody_esc_f (tail : List Char) :
    parseStrBody ('\\' :: 'f' :: tail) =
      (parseStrBody tail).map (fun r => (Char.ofNat 12 :: r.1, r.2)) := by
  rw [parseStrBody.eq_def]
  rfl

theorem parseStrBody_esc_r (tail : List Char) :
    parseStrBody ('\\' :: 'r' :: tail) =
      (parseStrBody tail).map (fun r => (Char.ofNat 13 :: r.1, r.2)) := by
  rw [parseStrBody.eq_def]
  rfl

theorem parseStrBody_esc_u (a b c d : Char) (tail : List Char) :
    parseStrBody ('\\' :: 'u' :: a :: b :: c :: d :: tail) =
      match hexVal a, hexVal b, hexVal c, hexVal d with
      | some v1, some v2, some v3, some v4 =>
        if v1 * 4096 + v2 * 256 + v3 * 16 + v4 < 0xd800 then
          (parseStrBody tail).map
            (fun r => (Char.ofNat (v1 * 4096 + v2 * 256 + v3 * 16 + v4) :: r.1, r.2))
        else none
      | _, _, _, _ => none := by
  rw [parseStrBody.eq_def]
  rfl

theorem parseStrBody_plain {c : Char} (h1 : c ≠ '"') (h2 : c ≠ '\\')
    (tail : List Char) :
    parseStrBody (c :: tail) = (parseStrBody tail).map (fun r => (c :: r.1, r.2)) := by
  rw [parseStrBody.eq_def]
  simp only []
  rw [if_neg h1, if_neg h2]

theorem parseStrBody_escStr (s rest : List Char) :
    parseStrBody (escStr s ++ '"' :: rest) = some (s, rest) := by
  induction s with
  | nil =>
    rw [show escStr [] = [] from rfl, List.nil_append, parseStrBody_quote]
  | cons c cs ih =>
    rw [show escStr (c :: cs) = escChar c ++ escStr cs from rfl, List.append_assoc]
    unfold escChar
    by_cases h1 : c = '"'
    · subst h1
      rw [if_pos rfl]
      simp only [List.cons_append, List.nil_append]
      rw [parseStrBody_esc_quote, ih]
      rfl
    · rw [if_neg h1]
      by_cases h2 : c = '\\'
      · subst h2
        rw [if_pos rfl]
        simp only [List.cons_append, List.nil_append]
        rw [parseStrBody_esc_bslash, ih]
        rfl
      · rw [if_neg h2]
        by_cases h3 : c.toNat = 8
        · rw [if_pos h3]
          simp only [List.cons_append, List.nil_append]
          rw [parseStrBody_esc_b, ih]
          simp only [Option.map_some']
          rw [char_eq_of_toNat_eq (a := Char.ofNat 8) (b := c)
            (by rw [char_toNat_ofNat (Or.inl (by omega))]; omega)]
        · rw [if_neg h3]
          by_cases h4 : c.toNat = 9
          · rw [if_pos h4]
            simp only [List.cons_append, List.nil_append]
            rw [parseStrBody_esc_t, ih]
            simp only [Option.map_some']
            rw [char_eq_of_toNat_eq (a := Char.ofNat 9) (b := c)
              (by rw [char_toNat_ofNat (Or.inl (by omega))]; omega)]
          · rw [if_neg h4]
            by_cases h5 : c.toNat = 10
            · rw [if_pos h5]
              simp only [List.cons_append, List.nil_append]
              rw [parseStrBody_esc_n, ih]
              simp only [Option.map_some']
              rw [char_eq_of_toNat_eq (a := Char.ofNat 10) (b := c)
                (by rw [char_toNat_ofNat (Or.inl (by omega))]; omega)]
            · rw [if_neg h5]
              by_cases h6 : c.toNat = 12
              · rw [if_pos h6]
                simp only [List.cons_append, List.nil_append]
                rw [parseStrBody_esc_f, ih]
                simp only [Option.map_some']
                rw [char_eq_of_toNat_eq (a := Char.ofNat 12) (b := c)
                  (by rw [char_toNat_ofNat (Or.inl (by omega))]; omega)]
              · rw [if_neg h6]
                by_cases h7 : c.toNat = 13
                · rw [if_pos h7]
                  simp only [List.cons_append, List.nil_append]
                  rw [parseStrBody_esc_r, ih]
                  simp only [Option.map_some']
                  rw [char_eq_of_toNat_eq (a := Char.ofNat 13) (b := c)
                    (by rw [char_toNat_ofNat (Or.inl (by omega))]; omega)]
                · rw [if_neg h7]
                  by_cases h8 : c.toNat < 32
                  · rw [if_pos h8]
                    simp only [List.cons_append, List.nil_append]
                    rw [parseStrBody_esc_u]
                    rw [show hexVal '0' = some 0 from rfl]
                    rw [hexVal_hexDigitChar (by omega), hexVal_hexDigitChar (by omega)]
                    simp only []
                    rw [if_pos (by omega), ih]
                    simp only [Option.map_some']
                    have hcode : 0 * 4096 + 0 * 256 + c.toNat / 16 * 16 + c.toNat % 16 =
                        c.toNat := by omega
                    rw [hcode, char_ofNat_toNat (by omega)]
                  · rw [if_neg h8]
                    simp only [List.cons_append, List.nil_append]
                    rw [parseStrBody_plain h1 h2, ih]
                    rfl

/-! ## Step lemmas for the value parser -/

theorem parseVal_null {fuel : Nat} {l rest : List Char}
    (hskip : skipWs l = 'n' :: 'u' :: 'l' :: 'l' :: rest) :
    parseVal (fuel + 1) l = some (.null, rest) := by
  rw [parseVal.eq_def]
  simp only []
  rw [hskip]
  rfl

theorem parseVal_true {fuel : Nat} {l rest : List Char}
    (hskip : skipWs l = 't' :: 'r' :: 'u' :: 'e' :: rest) :
    parseVal (fuel + 1) l = some (.bool true, rest) := by
  rw [parseVal.eq_def]
  simp only []
  rw [hskip]
  rfl

theorem parseVal_false {fuel : Nat} {l rest : List Char}
    (hskip : skipWs l = 'f' :: 'a' :: 'l' :: 's' :: 'e' :: rest) :
    parseVal (fuel + 1) l = some (.bool false, rest) := by
  rw [parseVal.eq_def]
  simp only []
  rw [hskip]
  rfl

theorem parseVal_str {fuel : Nat} {l rest : List Char}
    (hskip : skipWs l = '"' :: rest) :
    parseVal (fuel + 1) l = (parseStrBody rest).map (fun r => (.str ⟨r.1⟩, r.2)) := by
  rw [parseVal.eq_def]
  simp only []
  rw [hskip]
  rfl

theorem parseVal_arr_nil {fuel : Nat} {l rest rest2 : List Char}
    (hskip : skipWs l = '[' :: rest) (hskip2 : skipWs rest = ']' :: rest2) :
    parseVal (fuel + 1) l = some (.arr [], rest2) := by
  rw [parseVal.eq_def]
  simp only []
  rw [hskip]
  simp only []
  rw [hskip2]
  rfl

theorem parseVal_arr_cons {fuel : Nat} {l rest : List Char} {c : Char}
    {cs : List Char} (hskip : skipWs l = '[' :: rest)
    (hskip2 : skipWs rest = c :: cs) (hc : c ≠ ']') :
    parseVal (fuel + 1) l = (parseItems fuel rest).map (fun r => (.arr r.1, r.2)) := by
  rw [parseVal.eq_def]
  simp only []
  rw [hskip]
  simp only []
  rw [hskip2]
  split
  · next heq =>
    exfalso
    injection heq with h1 h2
    exact hc h1
  · rfl

theorem parseVal_obj_nil {fuel : Nat} {l rest rest2 : List Char}
    (hskip : skipWs l = '\x7b' :: rest) (hskip2 : skipWs rest = '\x7d' :: rest2) :
    parseVal (fuel + 1) l = some (.obj [], rest2) := by
  rw [parseVal.eq_def]
  simp only []
  rw [hskip]
  simp only []
  rw [hskip2]
  rfl

theorem parseVal_obj_cons {fuel : Nat} {l rest : List Char} {c : Char}
    {cs : List Char} (hskip : skipWs l = '\x7b' :: rest)
    (hskip2 : skipWs rest = c :: cs) (hc : c ≠ '\x7d') :
    parseVal (fuel + 1) l = (parseFields fuel rest).map (fun r => (.obj r.1, r.2)) := by
  rw [parseVal.eq_def]
  simp only []
  rw [hskip]
  simp only []
  rw [hskip2]
  split
  · next heq =>
    exfalso
    injection heq with h1 h2
    exact hc h1
  · rfl

theorem parseVal_neg {fuel : Nat} {l rest rest2 : List Char} {d : Char}
    {ds : List Char} (hskip : skipWs l = '-' :: rest)
    (hspan : spanDigits rest = (d :: ds, rest2)) :
    parseVal (fuel + 1) l = some (.num (-(digitsVal (d :: ds) : Int)), rest2) := by
  rw [parseVal.eq_def]
  simp only []
  rw [hskip]
  simp only []
  rw [hspan]

theorem parseVal_digit {fuel : Nat} {l : List Char} {c : Char}
    {cs ds rest2 : List Char} (hskip : skipWs l = c :: cs)
    (hc : isDigitCh c = true) (hspan : spanDigits (c :: cs) = (ds, rest2)) :
    parseVal (fuel + 1) l = some (.num (digitsVal ds : Int), rest2) := by
  rw [parseVal.eq_def]
  simp only []
  rw [hskip]
  split
  · next heq =>
    exfalso
    injection heq with h1 h2
    subst h1
    simp [isDigitCh] at hc
  · next heq =>
    exfalso
    injection heq with h1 h2
    subst h1
    simp [isDigitCh] at hc
  · next heq =>
    exfalso
    injection heq with h1 h2
    subst h1
    simp [isDigitCh] at hc
  · next heq =>
    exfalso
    injection heq with h1 h2
    subst h1
    simp [isDigitCh] at hc
  · next heq =>
    exfalso
    injection heq with h1 h2
    subst h1
    simp [isDigitCh] at hc
  · next heq =>
    exfalso
    injection heq with h1 h2
    subst h1
    simp [isDigitCh] at hc
  · next heq =>
    exfalso
    injection heq with h1 h2
    subst h1
    simp [isDigitCh] at hc
  · next heq =>
    injection heq with h1 h2
    subst h1
    subst h2
    rw [if_pos hc]
    rw [hspan]
  · next heq =>
    cases heq

theorem parseItems_step_comma {fuel : Nat} {l rest rest2 : List Char} {v : Json}
    (hv : parseVal fuel l = some (v, rest)) (hskip : skipWs rest = ',' :: rest2) :
    parseItems (fuel + 1) l = (parseItems fuel rest2).map (fun r => (v :: r.1, r.2)) := by
  rw [parseItems.eq_def]
  simp only []
  rw [hv]
  simp only []
  rw [hskip]
  rfl

theorem parseItems_step_close {fuel : Nat} {l rest rest2 : List Char} {v : Json}
    (hv : parseVal fuel l = some (v, rest)) (hskip : skipWs rest = ']' :: rest2) :
    parseItems (fuel + 1) l = some ([v], rest2) := by
  rw [parseItems.eq_def]
  simp only []
  rw [hv]
  simp only []
  rw [hskip]
  rfl

theorem parseFields_step_comma {fuel : Nat} {l rest rest2 rest3 rest4 rest5 : List Char}
    {k : List Char} {v : Json}
    (hskip : skipWs l = '"' :: rest)
    (hk : parseStrBody rest = some (k, rest2))
    (hcolon : skipWs rest2 = ':' :: rest3)
    (hv : parseVal fuel rest3 = some (v, rest4))
    (hskip2 : skipWs rest4 = ',' :: rest5) :
    parseFields (fuel + 1) l =
      (parseFields fuel rest5).map (fun r => ((⟨k⟩, v) :: r.1, r.2)) := by
  rw [parseFields.eq_def]
  simp only []
  rw [hskip]
  simp only []
  rw [hk]
  simp only []
  rw [hcolon]
  simp only []
  rw [hv]
  simp only []
  rw [hskip2]
  rfl

theorem parseFields_step_close {fuel : Nat} {l rest rest2 rest3 rest4 rest5 : List Char}
    {k : List Char} {v : Json}
    (hskip : skipWs l = '"' :: rest)
    (hk : parseStrBody rest = some (k, rest2))
    (hcolon : skipWs rest2 = ':' :: rest3)
    (hv : parseVal fuel rest3 = some (v, rest4))
    (hskip2 : skipWs rest4 = '\x7d' :: rest5) :
    parseFields (fuel + 1) l = some ([(⟨k⟩, v)], rest5) := by
  rw [parseFields.eq_def]
  simp only []
  rw [hskip]
  simp only []
  rw [hk]
  simp only []
  rw [hcolon]
  simp only []
  rw [hv]
  simp only []
  rw [hskip2]
  rfl

/-! ## Serializer equations -/

theorem serVal_null (ind : Nat) : serVal ind .null = ['n', 'u', 'l', 'l'] := by
  rw [serVal.eq_def]

theorem serVal_bool_true (ind : Nat) : serVal ind (.bool true) = ['t', 'r', 'u', 'e'] := by
  rw [serVal.eq_def]

theorem serVal_bool_false (ind : Nat) :
    serVal ind (.bool false) = ['f', 'a', 'l', 's', 'e'] := by
  rw [serVal.eq_def]

theorem serVal_num (ind : Nat) (n : Int) : serVal ind (.num n) = intChars n := by
  rw [serVal.eq_def]

theorem serVal_str (ind : Nat) (s : String) :
    serVal ind (.str s) = '"' :: (escStr s.data ++ ['"']) := by
  rw [serVal.eq_def]

theorem serVal_arr_nil (ind : Nat) : serVal ind (.arr []) = ['[', ']'] := by
  rw [serVal.eq_def]

theorem serVal_arr_cons (ind : Nat) (x : Json) (xs : List Json) :
    serVal ind (.arr (x :: xs)) =
      '[' :: '\n' :: (serItems (ind + 1) x xs ++ '\n' :: (indentChars ind ++ [']'])) := by
  rw [serVal.eq_def]

theorem serVal_obj_nil (ind : Nat) : serVal ind (.obj []) = ['\x7b', '\x7d'] := by
  rw [serVal.eq_def]

theorem serVal_obj_cons (ind : Nat) (k : String) (v : Json)
    (kvs : List (String × Json)) :
    serVal ind (.obj ((k, v) :: kvs)) =
      '\x7b' :: '\n' ::
        (serFields (ind + 1) k v kvs ++ '\n' :: (indentChars ind ++ ['\x7d'])) := by
  rw [serVal.eq_def]

theorem serItems_single (ind : Nat) (x : Json) :
    serItems ind x [] = indentChars ind ++ serVal ind x := by
  rw [serItems.eq_def]

theorem serItems_cons (ind : Nat) (x y : Json) (ys : List Json) :
    serItems ind x (y :: ys) =
      indentChars ind ++ (serVal ind x ++ (',' :: '\n' :: serItems ind y ys)) := by
  rw [serItems.eq_def]

theorem serFields_single (ind : Nat) (k : String) (v : Json) :
    serFields ind k v [] =
      indentChars ind ++ ('"' :: (escStr k.data ++ ('"' :: ':' :: ' ' :: serVal ind v))) := by
  rw [serFields.eq_def]

theorem serFields_cons (ind : Nat) (k : String) (v : Json) (k2 : String) (v2 : Json)
    (kvs : List (String × Json)) :
    serFields ind k v ((k2, v2) :: kvs) =
      indentChars ind ++ ('"' :: (escStr k.data ++ ('"' :: ':' :: ' ' :: (serVal ind v ++
        (',' :: '\n' :: serFields ind k2 v2 kvs))))) := by
  rw [serFields.eq_def]

/-! ## Weight equations and positivity -/

theorem wVal_null : wVal .null = 1 := by rw [wVal.eq_def]

theorem wVal_bool (b : Bool) : wVal (.bool b) = 1 := by rw [wVal.eq_def]

theorem wVal_num (n : Int) : wVal (.num n) = 1 := by rw [wVal.eq_def]

theorem wVal_str (s : String) : wVal (.str s) = 1 := by rw [wVal.eq_def]

theorem wVal_arr_nil : wVal (.arr []) = 1 := by rw [wVal.eq_def]

theorem wVal_arr_cons (x : Json) (xs : List Json) :
    wVal (.arr (x :: xs)) = 1 + wItems x xs := by rw [wVal.eq_def]

theorem wVal_obj_nil : wVal (.obj []) = 1 := by rw [wVal.eq_def]

theorem wVal_obj_cons (k : String) (v : Json) (kvs : List (String × Json)) :
    wVal (.obj ((k, v) :: kvs)) = 1 + wFields v kvs := by rw [wVal.eq_def]

theorem wItems_single (x : Json) : wItems x [] = 1 + wVal x := by rw [wItems.eq_def]

theorem wItems_cons (x y : Json) (ys : List Json) :
    wItems x (y :: ys) = 1 + wVal x + wItems y ys := by rw [wItems.eq_def]

theorem wFields_single (v : Json) : wFields v [] = 1 + wVal v := by rw [wFields.eq_def]

theorem wFields_cons (v : Json) (k2 : String) (v2 : Json) (kvs : List (String × Json)) :
    wFields v ((k2, v2) :: kvs) = 1 + wVal v + wFields v2 kvs := by rw [wFields.eq_def]

theorem wVal_pos (d : Json) : 1 ≤ wVal d := by
  cases d with
  | null => rw [wVal_null]
  | bool b => rw [wVal_bool]
  | num n => rw [wVal_num]
  | str s => rw [wVal_str]
  | arr items =>
    cases items with
    | nil => rw [wVal_arr_nil]
    | cons x xs => rw [wVal_arr_cons]; omega
  | obj fields =>
    cases fields with
    | nil => rw [wVal_obj_nil]
    | cons kv kvs =>
      obtain ⟨k, v⟩ := kv
      rw [wVal_obj_cons]
      omega

theorem wItems_pos (x : Json) (xs : List Json) : 1 ≤ wItems x xs := by
  cases xs with
  | nil => rw [wItems_single]; omega
  | cons y ys => rw [wItems_cons]; omega

theorem wFields_pos (v : Json) (kvs : List (String × Json)) : 1 ≤ wFields v kvs := by
  cases kvs with
  | nil => rw [wFields_single]; omega
  | cons kv kvs2 =>
    obtain ⟨k2, v2⟩ := kv
    rw [wFields_cons]
    omega

/-! ## Head of a serialized value -/

theorem serVal_head (ind : Nat) (d : Json) :
    ∃ c cs, serVal ind d = c :: cs ∧ isWsCh c = false ∧ c ≠ ']' ∧ c ≠ '\x7d' := by
  cases d with
  | null => exact ⟨'n', _, serVal_null ind, by decide, by decide, by decide⟩
  | bool b =>
    cases b with
    | true => exact ⟨'t', _, serVal_bool_true ind, by decide, by decide, by decide⟩
    | false => exact ⟨'f', _, serVal_bool_false ind, by decide, by decide, by decide⟩
  | num n =>
    rw [serVal_num]
    unfold intChars
    by_cases hn : n < 0
    · rw [if_pos hn]
      exact ⟨'-', _, rfl, by decide, by decide, by decide⟩
    · rw [if_neg hn]
      cases hnc : natChars n.natAbs with
      | nil => exact absurd hnc (natChars_ne_nil _)
      | cons c cs =>
        have hc : isDigitCh c = true := natChars_digits _ c (by rw [hnc]; simp)
        obtain ⟨h1, h2⟩ := isDigitCh_toNat hc
        have hbr : (']').toNat = 93 := rfl
        have hbr2 : ('\x7d').toNat = 125 := rfl
        exact ⟨c, cs, rfl, isWsCh_eq_false_of_digit hc,
          char_ne_of_toNat_ne (by omega), char_ne_of_toNat_ne (by omega)⟩
  | str s => exact ⟨'"', _, serVal_str ind s, by decide, by decide, by decide⟩
  | arr items =>
    cases items with
    | nil => exact ⟨'[', _, serVal_arr_nil ind, by decide, by decide, by decide⟩
    | cons x xs => exact ⟨'[', _, serVal_arr_cons ind x xs, by decide, by decide, by decide⟩
  | obj fields =>
    cases fields with
    | nil => exact ⟨'\x7b', _, serVal_obj_nil ind, by decide, by decide, by decide⟩
    | cons kv kvs =>
      obtain ⟨k, v⟩ := kv
      exact ⟨'\x7b', _, serVal_obj_cons ind k v kvs, by decide, by decide, by decide⟩

theorem skipWs_nl_indent (ind : Nat) (l : List Char) :
    skipWs ('\n' :: (indentChars ind ++ l)) = skipWs l := by
  have h1 : skipWs ('\n' :: (indentChars ind ++ l)) = skipWs (indentChars ind ++ l) := by
    rw [skipWs, if_pos (by decide)]
  rw [h1, skipWs_append_ws (indentChars_ws ind)]

theorem parseVal_ws_cons {c : Char} (hc : isWsCh c = true) (fuel : Nat) (l : List Char) :
    parseVal fuel (c :: l) = parseVal fuel l :=
  parseVal_ws (w := [c]) (by simp [hc]) fuel l

theorem parseVal_indent (ind fuel : Nat) (l : List Char) :
    parseVal fuel (indentChars ind ++ l) = parseVal fuel l :=
  parseVal_ws (indentChars_ws ind) fuel l

theorem parseItems_ws_cons {c : Char} (hc : isWsCh c = true) (fuel : Nat)
    (l : List Char) : parseItems fuel (c :: l) = parseItems fuel l :=
  parseItems_ws (w := [c]) (by simp [hc]) fuel l

theorem parseFields_ws_cons {c : Char} (hc : isWsCh c = true) (fuel : Nat)
    (l : List Char) : parseFields fuel (c :: l) = parseFields fuel l :=
  parseFields_ws (w := [c]) (by simp [hc]) fuel l

theorem serItems_shape (ind : Nat) (x : Json) (xs : List Json) :
    ∃ R, serItems ind x xs = indentChars ind ++ (serVal ind x ++ R) := by
  cases xs with
  | nil =>
    refine ⟨[], ?_⟩
    rw [serItems_single, List.append_nil]
  | cons y ys => exact ⟨_, serItems_cons ind x y ys⟩

theorem serFields_shape (ind : Nat) (k : String) (v : Json)
    (kvs : List (String × Json)) :
    ∃ R, serFields ind k v kvs = indentChars ind ++ ('"' :: R) := by
  cases kvs with
  | nil => exact ⟨_, serFields_single ind k v⟩
  | cons kv2 kvs2 =>
    obtain ⟨k2, v2⟩ := kv2
    exact ⟨_, serFields_cons ind k v k2 v2 kvs2⟩

/-- The round-trip core: with enough fuel, the parsers read back
exactly what the serializers produced.  Proved for all three parser
levels simultaneously by strong induction on the fuel. -/
theorem parse_ser_roundtrip (fuel : Nat) :
    (∀ (d : Json) (ind : Nat) (rest : List Char), wVal d ≤ fuel →
      (∀ c cs, rest = c :: cs → isDigitCh c = false) →
      parseVal fuel (serVal ind d ++ rest) = some (d, rest))
    ∧ (∀ (x : Json) (xs : List Json) (ind : Nat) (rest : List Char),
        wItems x xs ≤ fuel →
        parseItems fuel
          (serItems (ind + 1) x xs ++ ('\n' :: (indentChars ind ++ (']' :: rest)))) =
          some (x :: xs, rest))
    ∧ (∀ (k : String) (v : Json) (kvs : List (String × Json)) (ind : Nat)
        (rest : List Char), wFields v kvs ≤ fuel →
        parseFields fuel
          (serFields (ind + 1) k v kvs ++ ('\n' :: (indentChars ind ++ ('\x7d' :: rest)))) =
          some ((k, v) :: kvs, rest)) := by
  induction fuel using Nat.strong_induction_on with
  | _ fuel ih =>
    cases fuel with
    | zero =>
      refine ⟨?_, ?_, ?_⟩
      · intro d ind rest hw hrest
        have := wVal_pos d
        omega
      · intro x xs ind rest hw
        have := wItems_pos x xs
        omega
      · intro k v kvs ind rest hw
        have := wFields_pos v kvs
        omega
    | succ f =>
      obtain ⟨ihV, ihI, ihF⟩ := ih f (by omega)
      refine ⟨?_, ?_, ?_⟩
      · -- values
        intro d ind rest hw hrest
        cases d with
        | null =>
          rw [serVal_null]
          simp only [List.cons_append, List.nil_append]
          exact parseVal_null (skipWs_cons_not_ws (by decide))
        | bool b =>
          cases b with
          | true =>
            rw [serVal_bool_true]
            simp only [List.cons_append, List.nil_append]
            exact parseVal_true (skipWs_cons_not_ws (by decide))
          | false =>
            rw [serVal_bool_false]
            simp only [List.cons_append, List.nil_append]
            exact parseVal_false (skipWs_cons_not_ws (by decide))
        | str s =>
          rw [serVal_str]
          simp only [List.cons_append, List.append_assoc, List.singleton_append]
          rw [parseVal_str (skipWs_cons_not_ws (by decide))]
          rw [parseStrBody_escStr]
          simp only [Option.map_some']
          rw [mk_data, List.nil_append]
        | num n =>
          rw [serVal_num]
          unfold intChars
          by_cases hn : n < 0
          · rw [if_pos hn]
            cases hnc : natChars n.natAbs with
            | nil => exact absurd hnc (natChars_ne_nil _)
            | cons d0 ds0 =>
              have hdig : ∀ c ∈ natChars n.natAbs, isDigitCh c = true :=
                natChars_digits _
              have hspan : spanDigits (natChars n.natAbs ++ rest) =
                  (natChars n.natAbs, rest) := spanDigits_append hdig hrest
              rw [hnc] at hspan
              simp only [List.cons_append] at hspan ⊢
              rw [parseVal_neg (skipWs_cons_not_ws (by decide)) hspan]
              have hval : digitsVal (d0 :: ds0) = n.natAbs := by
                rw [← hnc]
                exact digitsVal_natChars _
              rw [hval]
              have : -(n.natAbs : Int) = n := by omega
              rw [this]
          · rw [if_neg hn]
            cases hnc : natChars n.natAbs with
            | nil => exact absurd hnc (natChars_ne_nil _)
            | cons d0 ds0 =>
              have hd0 : isDigitCh d0 = true :=
                natChars_digits _ d0 (by rw [hnc]; simp)
              have hdig : ∀ c ∈ natChars n.natAbs, isDigitCh c = true :=
                natChars_digits _
              have hspan : spanDigits (natChars n.natAbs ++ rest) =
                  (natChars n.natAbs, rest) := spanDigits_append hdig hrest
              rw [hnc] at hspan
              simp only [List.cons_append] at hspan ⊢
              rw [parseVal_digit (skipWs_cons_not_ws (isWsCh_eq_false_of_digit hd0))
                hd0 hspan]
              have hval : digitsVal (d0 :: ds0) = n.natAbs := by
                rw [← hnc]
                exact digitsVal_natChars _
              rw [hval]
              have : ((n.natAbs : Nat) : Int) = n := by omega
              rw [this]
        | arr items =>
          cases items with
          | nil =>
            rw [serVal_arr_nil]
            simp only [List.cons_append, List.nil_append]
            exact parseVal_arr_nil (skipWs_cons_not_ws (by decide))
              (skipWs_cons_not_ws (by decide))
          | cons x xs =>
            rw [serVal_arr_cons]
            simp only [List.cons_append, List.append_assoc, List.nil_append]
            obtain ⟨R, hR⟩ := serItems_shape (ind + 1) x xs
            obtain ⟨c, cs0, hser, hcws, hcbr, hcbr2⟩ := serVal_head (ind + 1) x
            have hskip2 : skipWs ('\n' :: (serItems (ind + 1) x xs ++
                ('\n' :: (indentChars ind ++ (']' :: rest))))) =
                c :: (cs0 ++ (R ++ ('\n' :: (indentChars ind ++ (']' :: rest))))) := by
              rw [hR]
              simp only [List.append_assoc]
              rw [skipWs_nl_indent]
              rw [hser]
              simp only [List.cons_append]
              exact skipWs_cons_not_ws hcws
            rw [parseVal_arr_cons (skipWs_cons_not_ws (by decide)) hskip2 hcbr]
            rw [parseItems_ws_cons (by decide)]
            rw [ihI x xs ind rest (by rw [wVal_arr_cons] at hw; omega)]
            rfl
        | obj fields =>
          cases fields with
          | nil =>
            rw [serVal_obj_nil]
            simp only [List.cons_append, List.nil_append]
            exact parseVal_obj_nil (skipWs_cons_not_ws (by decide))
              (skipWs_cons_not_ws (by decide))
          | cons kv kvs =>
            obtain ⟨k, v⟩ := kv
            rw [serVal_obj_cons]
            simp only [List.cons_append, List.append_assoc, List.nil_append]
            obtain ⟨R, hR⟩ := serFields_shape (ind + 1) k v kvs
            have hskip2 : skipWs ('\n' :: (serFields (ind + 1) k v kvs ++
                ('\n' :: (indentChars ind ++ ('\x7d' :: rest))))) =
                '"' :: (R ++ ('\n' :: (indentChars ind ++ ('\x7d' :: rest)))) := by
              rw [hR]
              simp only [List.append_assoc]
              rw [skipWs_nl_indent]
              simp only [List.cons_append]
              exact skipWs_cons_not_ws (by decide)
            rw [parseVal_obj_cons (skipWs_cons_not_ws (by decide)) hskip2 (by decide)]
            rw [parseFields_ws_cons (by decide)]
            rw [ihF k v kvs ind rest (by rw [wVal_obj_cons] at hw; omega)]
            rfl
      · -- items
        intro x xs ind rest hw
        cases xs with
        | nil =>
          rw [serItems_single]
          simp only [List.append_assoc]
          have hv : parseVal f (indentChars (ind + 1) ++ (serVal (ind + 1) x ++
              ('\n' :: (indentChars ind ++ (']' :: rest))))) =
              some (x, '\n' :: (indentChars ind ++ (']' :: rest))) := by
            rw [parseVal_indent]
            exact ihV x (ind + 1) _ (by rw [wItems_single] at hw; omega)
              (by intro c cs hceq; injection hceq with h1 h2; rw [← h1]; decide)
          have hskip : skipWs ('\n' :: (indentChars ind ++ (']' :: rest))) =
              ']' :: rest := by
            rw [skipWs_nl_indent]
            exact skipWs_cons_not_ws (by decide)
          rw [parseItems_step_close hv hskip]
        | cons y ys =>
          rw [serItems_cons]
          simp only [List.append_assoc, List.cons_append]
          have hv : parseVal f (indentChars (ind + 1) ++ (serVal (ind + 1) x ++
              (',' :: '\n' :: (serItems (ind + 1) y ys ++
                ('\n' :: (indentChars ind ++ (']' :: rest))))))) =
              some (x, ',' :: '\n' :: (serItems (ind + 1) y ys ++
                ('\n' :: (indentChars ind ++ (']' :: rest))))) := by
            rw [parseVal_indent]
            exact ihV x (ind + 1) _ (by rw [wItems_cons] at hw; omega)
              (by intro c cs hceq; injection hceq with h1 h2; rw [← h1]; decide)
          have hskip : skipWs (',' :: '\n' :: (serItems (ind + 1) y ys ++
              ('\n' :: (indentChars ind ++ (']' :: rest))))) =
              ',' :: ('\n' :: (serItems (ind + 1) y ys ++
                ('\n' :: (indentChars ind ++ (']' :: rest))))) :=
            skipWs_cons_not_ws (by decide)
          rw [parseItems_step_comma hv hskip]
          rw [parseItems_ws_cons (by decide)]
          rw [ihI y ys ind rest (by rw [wItems_cons] at hw; omega)]
          rfl
      · -- fields
        intro k v kvs ind rest hw
        cases kvs with
        | nil =>
          rw [serFields_single]
          simp only [List.append_assoc, List.cons_append]
          have hskip : skipWs (indentChars (ind + 1) ++ ('"' :: (escStr k.data ++
              ('"' :: ':' :: ' ' :: (serVal (ind + 1) v ++
                ('\n' :: (indentChars ind ++ ('\x7d' :: rest)))))))) =
              '"' :: (escStr k.data ++ ('"' :: ':' :: ' ' :: (serVal (ind + 1) v ++
                ('\n' :: (indentChars ind ++ ('\x7d' :: rest)))))) := by
            rw [skipWs_append_ws (indentChars_ws _)]
            exact skipWs_cons_not_ws (by decide)
          have hk : parseStrBody (escStr k.data ++ ('"' :: ':' :: ' ' ::
              (serVal (ind + 1) v ++ ('\n' :: (indentChars ind ++ ('\x7d' :: rest)))))) =
              some (k.data, ':' :: ' ' :: (serVal (ind + 1) v ++
                ('\n' :: (indentChars ind ++ ('\x7d' :: rest))))) := by
            exact parseStrBody_escStr _ _
          have hcolon : skipWs (':' :: ' ' :: (serVal (ind + 1) v ++
              ('\n' :: (indentChars ind ++ ('\x7d' :: rest))))) =
              ':' :: (' ' :: (serVal (ind + 1) v ++
                ('\n' :: (indentChars ind ++ ('\x7d' :: rest))))) :=
            skipWs_cons_not_ws (by decide)
          have hv : parseVal f (' ' :: (serVal (ind + 1) v ++
              ('\n' :: (indentChars ind ++ ('\x7d' :: rest))))) =
              some (v, '\n' :: (indentChars ind ++ ('\x7d' :: rest))) := by
            rw [parseVal_ws_cons (by decide)]
            exact ihV v (ind + 1) _ (by rw [wFields_single] at hw; omega)
              (by intro c cs hceq; injection hceq with h1 h2; rw [← h1]; decide)
          have hskip2 : skipWs ('\n' :: (indentChars ind ++ ('\x7d' :: rest))) =
              '\x7d' :: rest := by
            rw [skipWs_nl_indent]
            exact skipWs_cons_not_ws (by decide)
          rw [parseFields_step_close hskip hk hcolon hv hskip2]
        | cons kv2 kvs2 =>
          obtain ⟨k2, v2⟩ := kv2
          rw [serFields_cons]
          simp only [List.append_assoc, List.cons_append]
          have hskip : skipWs (indentChars (ind + 1) ++ ('"' :: (escStr k.data ++
              ('"' :: ':' :: ' ' :: (serVal (ind + 1) v ++
                (',' :: '\n' :: (serFields (ind + 1) k2 v2 kvs2 ++
                  ('\n' :: (indentChars ind ++ ('\x7d' :: rest)))))))))) =
              '"' :: (escStr k.data ++ ('"' :: ':' :: ' ' :: (serVal (ind + 1) v ++
                (',' :: '\n' :: (serFields (ind + 1) k2 v2 kvs2 ++
                  ('\n' :: (indentChars ind ++ ('\x7d' :: rest)))))))) := by
            rw [skipWs_append_ws (indentChars_ws _)]
            exact skipWs_cons_not_ws (by decide)
          have hk : parseStrBody (escStr k.data ++ ('"' :: ':' :: ' ' ::
              (serVal (ind + 1) v ++ (',' :: '\n' ::
                (serFields (ind + 1) k2 v2 kvs2 ++
                  ('\n' :: (indentChars ind ++ ('\x7d' :: rest)))))))) =
              some (k.data, ':' :: ' ' :: (serVal (ind + 1) v ++
                (',' :: '\n' :: (serFields (ind + 1) k2 v2 kvs2 ++
                  ('\n' :: (indentChars ind ++ ('\x7d' :: rest))))))) :=
            parseStrBody_escStr _ _
          have hcolon : skipWs (':' :: ' ' :: (serVal (ind + 1) v ++
              (',' :: '\n' :: (serFields (ind + 1) k2 v2 kvs2 ++
                ('\n' :: (indentChars ind ++ ('\x7d' :: rest))))))) =
              ':' :: (' ' :: (serVal (ind + 1) v ++
                (',' :: '\n' :: (serFields (ind + 1) k2 v2 kvs2 ++
                  ('\n' :: (indentChars ind ++ ('\x7d' :: rest))))))) :=
            skipWs_cons_not_ws (by decide)
          have hv : parseVal f (' ' :: (serVal (ind + 1) v ++
              (',' :: '\n' :: (serFields (ind + 1) k2 v2 kvs2 ++
                ('\n' :: (indentChars ind ++ ('\x7d' :: rest))))))) =
              some (v, ',' :: '\n' :: (serFields (ind + 1) k2 v2 kvs2 ++
                ('\n' :: (indentChars ind ++ ('\x7d' :: rest))))) := by
            rw [parseVal_ws_cons (by decide)]
            exact ihV v (ind + 1) _ (by rw [wFields_cons] at hw; omega)
              (by intro c cs hceq; injection hceq with h1 h2; rw [← h1]; decide)
          have hskip2 : skipWs (',' :: '\n' :: (serFields (ind + 1) k2 v2 kvs2 ++
              ('\n' :: (indentChars ind ++ ('\x7d' :: rest))))) =
              ',' :: ('\n' :: (serFields (ind + 1) k2 v2 kvs2 ++
                ('\n' :: (indentChars ind ++ ('\x7d' :: rest))))) :=
            skipWs_cons_not_ws (by decide)
          rw [parseFields_step_comma hskip hk hcolon hv hskip2]
          rw [parseFields_ws_cons (by decide)]
          rw [ihF k2 v2 kvs2 ind rest (by rw [wFields_cons] at hw; omega)]
          rfl

theorem json_sizeOf_pos (d : Json) : 1 ≤ sizeOf d := by
  cases d <;> simp

theorem intChars_length_pos (n : Int) : 1 ≤ (intChars n).length := by
  unfold intChars
  by_cases hn : n < 0
  · rw [if_pos hn]
    simp
  · rw [if_neg hn]
    cases hnc : natChars n.natAbs with
    | nil => exact absurd hnc (natChars_ne_nil _)
    | cons c cs => simp

/-- The parser fuel weight of a document is bounded by the length of
its serialization (so `from_str`'s fuel, the input length, always
suffices). -/
theorem wVal_le_serVal_length (N : Nat) :
    (∀ (d : Json) (ind : Nat), sizeOf d ≤ N → wVal d ≤ (serVal ind d).length)
    ∧ (∀ (x : Json) (xs : List Json) (ind : Nat), 1 ≤ ind →
        sizeOf x + sizeOf xs ≤ N → wItems x xs ≤ (serItems ind x xs).length)
    ∧ (∀ (v : Json) (kvs : List (String × Json)) (k : String) (ind : Nat), 1 ≤ ind →
        sizeOf v + sizeOf kvs ≤ N → wFields v kvs ≤ (serFields ind k v kvs).length) := by
  induction N using Nat.strong_induction_on with
  | _ N ih =>
    refine ⟨?_, ?_, ?_⟩
    · intro d ind hN
      have hdpos := json_sizeOf_pos d
      cases d with
      | null => rw [wVal_null, serVal_null]; simp
      | bool b =>
        cases b with
        | true => rw [wVal_bool, serVal_bool_true]; simp
        | false => rw [wVal_bool, serVal_bool_false]; simp
      | num n =>
        rw [wVal_num, serVal_num]
        exact intChars_length_pos n
      | str s =>
        rw [wVal_str, serVal_str]
        simp
      | arr items =>
        cases items with
        | nil => rw [wVal_arr_nil, serVal_arr_nil]; simp
        | cons x xs =>
          have hsz : sizeOf x + sizeOf xs ≤ N - 2 := by
            simp only [Json.arr.sizeOf_spec, List.cons.sizeOf_spec] at hN
            omega
          have hN2 : N - 1 < N := by
            simp only [Json.arr.sizeOf_spec, List.cons.sizeOf_spec] at hN
            have := json_sizeOf_pos x
            omega
          have hIH := (ih (N - 1) hN2).2.1 x xs (ind + 1) (by omega) (by omega)
          rw [wVal_arr_cons, serVal_arr_cons]
          simp only [List.length_cons, List.length_append]
          omega
      | obj fields =>
        cases fields with
        | nil => rw [wVal_obj_nil, serVal_obj_nil]; simp
        | cons kv kvs =>
          obtain ⟨k, v⟩ := kv
          have hsz : sizeOf v + sizeOf kvs ≤ N - 2 := by
            simp only [Json.obj.sizeOf_spec, List.cons.sizeOf_spec,
              Prod.mk.sizeOf_spec] at hN
            omega
          have hN2 : N - 1 < N := by
            simp only [Json.obj.sizeOf_spec, List.cons.sizeOf_spec,
              Prod.mk.sizeOf_spec] at hN
            have := json_sizeOf_pos v
            omega
          have hIH := (ih (N - 1) hN2).2.2 v kvs k (ind + 1) (by omega) (by omega)
          rw [wVal_obj_cons, serVal_obj_cons]
          simp only [List.length_cons, List.length_append]
          omega
    · intro x xs ind hind hN
      have hxpos := json_sizeOf_pos x
      cases xs with
      | nil =>
        have hN2 : N - 1 < N := by
          simp only [List.nil.sizeOf_spec] at hN
          omega
        have hIH := (ih (N - 1) hN2).1 x ind (by simp only [List.nil.sizeOf_spec] at hN; omega)
        rw [wItems_single, serItems_single]
        simp only [List.length_append, indentChars, List.length_replicate]
        omega
      | cons y ys =>
        have hypos := json_sizeOf_pos y
        have hN2 : N - 1 < N := by omega
        have hIH1 := (ih (N - 1) hN2).1 x ind
          (by simp only [List.cons.sizeOf_spec] at hN; omega)
        have hIH2 := (ih (N - 1) hN2).2.1 y ys ind hind
          (by simp only [List.cons.sizeOf_spec] at hN; omega)
        rw [wItems_cons, serItems_cons]
        simp only [List.length_append, List.length_cons, indentChars,
          List.length_replicate]
        omega
    · intro v kvs k ind hind hN
      have hvpos := json_sizeOf_pos v
      cases kvs with
      | nil =>
        have hN2 : N - 1 < N := by
          simp only [List.nil.sizeOf_spec] at hN
          omega
        have hIH := (ih (N - 1) hN2).1 v ind
          (by simp only [List.nil.sizeOf_spec] at hN; omega)
        rw [wFields_single, serFields_single]
        simp only [List.length_append, List.length_cons, indentChars,
          List.length_replicate]
        omega
      | cons kv2 kvs2 =>
        obtain ⟨k2, v2⟩ := kv2
        have hN2 : N - 1 < N := by omega
        have hIH1 := (ih (N - 1) hN2).1 v ind
          (by simp only [List.cons.sizeOf_spec, Prod.mk.sizeOf_spec] at hN; omega)
        have hIH2 := (ih (N - 1) hN2).2.2 v2 kvs2 k2 ind hind
          (by simp only [List.cons.sizeOf_spec, Prod.mk.sizeOf_spec] at hN; omega)
        rw [wFields_cons, serFields_cons]
        simp only [List.length_append, List.length_cons, indentChars,
          List.length_replicate]
        omega

/-- Round-trip through the modelled `serde_json`: parsing a
pretty-printed document returns exactly that document. -/
theorem fromStr_toStringPretty (d : Json) : fromStr (toStringPretty d) = some d := by
  unfold fromStr toStringPretty
  have hb := (wVal_le_serVal_length (sizeOf d)).1 d 0 (le_refl _)
  have h := (parse_ser_roundtrip ((serVal 0 d).length + 1)).1 d 0 []
    (by omega) (fun c cs h => List.noConfusion h)
  rw [List.append_nil] at h
  rw [show (String.mk (serVal 0 d)).data = serVal 0 d from rfl]
  rw [h]
  rfl

theorem fileAt_congr {fs1 fs2 : Fs} (h : fs1.files = fs2.files) (q : List String) :
    fileAt fs1 q = fileAt fs2 q := by
  unfold fileAt
  rw [h]

theorem fileAt_fsWrite_self (fs : Fs) (p : List String) (d : FileData) :
    fileAt (fsWrite fs p d) p = some d := by
  simp [fileAt, fsWrite]

theorem pathExistsB_of_fileAt {fs : Fs} {p : List String} {d : FileData}
    (h : fileAt fs p = some d) : pathExistsB fs p = true := by
  simp [pathExistsB, h]

/-! ## Claim C5: save/load round-trip -/

/-- C5: for every valid plugin id, valid config name and document,
`save_config` succeeds and a subsequent `load_config` returns a
document equal to the one saved (through the modelled `serde_json`
pretty-print/parse round-trip). -/
theorem saveLoad_roundtrip (st : ApiState) (fs : Fs) (pluginId configName : String)
    (doc : Json) (hid : validatePluginId pluginId = .ok ())
    (hname : validateConfigName configName = .ok ()) :
    (saveConfigRun st fs pluginId configName doc).result = .ok ()
    ∧ (loadConfigRun st (saveConfigRun st fs pluginId configName doc).fs
        pluginId configName).result = .ok doc := by
  obtain ⟨hres1, hfiles1, hexists1, hev1⟩ := getPluginConfigDirRun_spec st fs pluginId hid
  cases hg1 : getPluginConfigDirRun st fs pluginId with
  | mk res1 fs1 ev1 =>
    rw [hg1] at hres1
    simp only [] at hres1
    subst hres1
    have hjoin := configPath_join (configDirOf st pluginId) hname
    have hsave : saveConfigRun st fs pluginId configName doc =
        ⟨.ok (), fsWrite fs1 (configDirOf st pluginId ++ [configName ++ ".json"])
            (.text (toStringPretty doc)),
          ev1 ++ [.fileWrite (configDirOf st pluginId ++ [configName ++ ".json"])]⟩ := by
      simp only [saveConfigRun, hname, hg1, hjoin]
    rw [hsave]
    refine ⟨rfl, ?_⟩
    simp only []
    obtain ⟨hres2, hfiles2, hexists2, hev2⟩ := getPluginConfigDirRun_spec st
      (fsWrite fs1 (configDirOf st pluginId ++ [configName ++ ".json"])
        (.text (toStringPretty doc))) pluginId hid
    cases hg2 : getPluginConfigDirRun st
        (fsWrite fs1 (configDirOf st pluginId ++ [configName ++ ".json"])
          (.text (toStringPretty doc))) pluginId with
    | mk res2 fs3 ev3 =>
      rw [hg2] at hres2 hfiles2
      simp only [] at hres2 hfiles2
      subst hres2
      have hfile3 : fileAt fs3 (configDirOf st pluginId ++ [configName ++ ".json"]) =
          some (.text (toStringPretty doc)) := by
        rw [fileAt_congr hfiles2]
        exact fileAt_fsWrite_self _ _ _
      have hex3 : pathExistsB fs3
          (configDirOf st pluginId ++ [configName ++ ".json"]) = true :=
        pathExistsB_of_fileAt hfile3
      simp only [loadConfigRun, hname, hg2, hjoin, hex3, hfile3,
        fromStr_toStringPretty, Bool.not_true, Bool.false_eq_true, if_false]

theorem saveLoad_roundtrip_witness :
    (saveConfigRun (ApiState.new ["a"]) ⟨[], []⟩ "p" "settings"
      (.obj [("enabled", .bool true), ("count", .num 3)])).result = .ok ()
    ∧ (loadConfigRun (ApiState.new ["a"])
        (saveConfigRun (ApiState.new ["a"]) ⟨[], []⟩ "p" "settings"
          (.obj [("enabled", .bool true), ("count", .num 3)])).fs
        "p" "settings").result =
      .ok (.obj [("enabled", .bool true), ("count", .num 3)]) :=
  saveLoad_roundtrip (ApiState.new ["a"]) ⟨[], []⟩ "p" "settings"
    (.obj [("enabled", .bool true), ("count", .num 3)]) (by decide) (by decide)

end Volt
